import Mathlib

/-!
# Thread pool: result channel, bounded queue and worker lifecycle

A shallow embedding of `src/src/threadpool.h` and `src/src/threadpool.cpp`.

* Objects that C++ reaches through pointers (`Task`, `Result`) live in a `Heap`
  and are named by their address (`TaskPtr`, `ResultPtr`).
* The members of `ThreadPool` protected by `m_taskQueMtx` form the structure
  `ThreadPool`; together with the static `Thread::s_generateId`, the launched
  OS threads and the heap they form a `World`.
* Every critical section of the source is one atomic transition on `World`.
  A blocking wait that cannot proceed, and a null dereference, have no
  successor state (`none`).
* `ThreadPool::start` holds no lock. `ThreadPool.start` is the call with no
  step of another thread in between; `FineWorld`, `startAdvance` and `fineStep`
  execute it one statement at a time, with worker steps in between.
* `int` members are mathematical integers; the one place where the source
  converts to an unsigned type, `(size_t)m_taskQueMaxThreshHold`, is modelled
  with an explicit reduction modulo `2 ^ 64`.
* Wall-clock time is not modelled: the idle-timeout test of `threadFunc` may
  succeed at any moment.
-/

namespace ThreadPoolModel

/-! ## Run-time type information -/

/-- Codes for the C++ types a task may return. `El t` is the set of values of
the type with code `t`; `constCharPtr` is `const char *`, the type the literal
`""` decays to when it is passed by value, and `emptyLiteral` is that
literal. -/
class CppTypes (Ty : Type) where
  decEq : DecidableEq Ty
  El : Ty → Type
  constCharPtr : Ty
  emptyLiteral : El constCharPtr

instance instDecEqOfCppTypes {Ty : Type} [CppTypes Ty] : DecidableEq Ty :=
  CppTypes.decEq

/-- A small concrete family of return types, used for concrete runs. -/
inductive BasicTy where
  | int
  | uLong
  | constCharPtr
  | stdString
  deriving DecidableEq, Repr

/-- Values of the concrete return types. -/
def BasicTy.El : BasicTy → Type
  | .int => Int
  | .uLong => Nat
  | .constCharPtr => String
  | .stdString => String

instance instCppTypesBasicTy : CppTypes BasicTy where
  decEq := inferInstance
  El := BasicTy.El
  constCharPtr := BasicTy.constCharPtr
  emptyLiteral := ""

/-! ## `class Any` (threadpool.h 61-110) -/

/-- The class `Any`: `m_base` is a `unique_ptr<Base>`; when non-null it points to
a `Derived<S>` holding `m_data : S`. -/
structure Any (Ty : Type) [CppTypes Ty] where
  m_base : Option ((S : Ty) × CppTypes.El S)

/-- The default constructor `Any() = default`: a null `m_base`. -/
def Any.empty {Ty : Type} [CppTypes Ty] : Any Ty :=
  { m_base := none }

/-- The converting constructor `template <typename T> Any(T data)`:
`m_base(std::make_unique<Derived<T>>(data))`. -/
def Any.of {Ty : Type} [CppTypes Ty] (T : Ty) (data : CppTypes.El T) : Any Ty :=
  { m_base := some ⟨T, data⟩ }

/-- The member `template <typename T> T cast_()`. The `dynamic_cast` to
`Derived<T> *` yields null when `m_base` is null or points to a `Derived<S>`
with `S ≠ T`; then the string `"type is unmatched!"` is thrown. Otherwise a
copy of `dp->m_data` is returned. The second component is the container after
the call. -/
def Any.cast_ {Ty : Type} [CppTypes Ty] (T : Ty) (self : Any Ty) :
    Except String (CppTypes.El T) × Any Ty :=
  match self.m_base with
  | some ⟨S, m_data⟩ =>
    if h : S = T then (Except.ok (h ▸ m_data), self)
    else (Except.error "type is unmatched!", self)
  | none => (Except.error "type is unmatched!", self)

/-- The defaulted move constructor `Any(Any &&)`: the new object takes over
`m_base`, the moved-from object is left with a null `m_base`. The result is
(new object, moved-from object). -/
def Any.move {Ty : Type} [CppTypes Ty] (src : Any Ty) : Any Ty × Any Ty :=
  ({ m_base := src.m_base }, { m_base := none })

/-! ## `class semaphore` (threadpool.h 15-58) -/

/-- The class `semaphore`, without its mutex and condition variable. -/
structure semaphore where
  m_resLimit : Int
  m_isExit : Bool
  deriving DecidableEq, Repr

/-- The constructor `semaphore(int limit = 0)`. -/
def semaphore.init (limit : Int) : semaphore :=
  { m_resLimit := limit, m_isExit := false }

/-- The member `wait()`: returns at once when `m_isExit`; otherwise blocks until
`m_resLimit > 0` and then decrements. `none` means the caller stays blocked. -/
def semaphore.wait (self : semaphore) : Option semaphore :=
  if self.m_isExit then some self
  else if self.m_resLimit > 0 then some { self with m_resLimit := self.m_resLimit - 1 }
  else none

/-- The member `post()`: returns at once when `m_isExit`; otherwise increments
`m_resLimit` (and notifies). -/
def semaphore.post (self : semaphore) : semaphore :=
  if self.m_isExit then self
  else { self with m_resLimit := self.m_resLimit + 1 }

/-! ## `class Result` and `class Task` -/

/-- Address of a `Task` object (`std::shared_ptr<Task>`, assumed non-null). -/
abbrev TaskPtr := Nat

/-- Address of a `Result` object (`Result *`). -/
abbrev ResultPtr := Nat

/-- The class `Result` (threadpool.h 115-132). -/
structure Result (Ty : Type) [CppTypes Ty] where
  m_value : Any Ty
  m_sem : semaphore
  m_task : TaskPtr
  m_isValid : Bool

/-- The class `Task` (threadpool.h 134-149). `run` is the value the overridden
virtual `run()` of this task object returns; `m_result` is the raw back
pointer, `none` for `nullptr`. -/
structure Task (Ty : Type) [CppTypes Ty] where
  run : Any Ty
  m_result : Option ResultPtr

/-- The constructor `Task::Task() : m_result(nullptr)` of a task whose `run()`
returns `run`. -/
def Task.init {Ty : Type} [CppTypes Ty] (run : Any Ty) : Task Ty :=
  { run := run, m_result := none }

/-- The member `Task::setResult`. -/
def Task.setResult {Ty : Type} [CppTypes Ty] (self : Task Ty) (result : Option ResultPtr) :
    Task Ty :=
  { self with m_result := result }

/-- The member `Result::setValue`: `m_value = std::move(value); m_sem.post();`. -/
def Result.setValue {Ty : Type} [CppTypes Ty] (self : Result Ty) (value : Any Ty) :
    Result Ty :=
  { self with m_value := (Any.move value).1, m_sem := self.m_sem.post }

/-- The member `Result::get`: an invalid handle returns `Any("")` at once;
otherwise `m_sem.wait()` and then `std::move(m_value)`. `none` means the
caller stays blocked in `wait`. The result is (returned container, handle
after the call). -/
def Result.get {Ty : Type} [CppTypes Ty] (self : Result Ty) :
    Option (Any Ty × Result Ty) :=
  if !self.m_isValid then
    some (Any.of CppTypes.constCharPtr CppTypes.emptyLiteral, self)
  else
    match self.m_sem.wait with
    | none => none
    | some sem =>
      some ((Any.move self.m_value).1,
        { self with m_sem := sem, m_value := (Any.move self.m_value).2 })

/-- The objects reachable through pointers: `Task`s and `Result`s by address. -/
structure Heap (Ty : Type) [CppTypes Ty] where
  tasks : List (Task Ty)
  results : List (Result Ty)

/-- The constructor `Result::Result(std::shared_ptr<Task> task, bool isValid)`:
a new `Result` at a fresh address, with a default `m_value` and `m_sem`, and
`m_task->setResult(this)`. Returns the address of the new object. -/
def Result.init {Ty : Type} [CppTypes Ty] (task : TaskPtr) (isValid : Bool) (h : Heap Ty) :
    ResultPtr × Heap Ty :=
  (h.results.length,
    { tasks := h.tasks.modify (fun t => t.setResult (some h.results.length)) task,
      results := h.results ++
        [{ m_value := Any.empty, m_sem := semaphore.init 0, m_task := task,
           m_isValid := isValid }] })

/-- The call `m_result->setValue(value)` through a `Result *`. -/
def Heap.setValue {Ty : Type} [CppTypes Ty] (h : Heap Ty) (result : ResultPtr)
    (value : Any Ty) : Heap Ty :=
  { h with results := h.results.modify (fun r => r.setValue value) result }

/-- The member `Task::exec` (threadpool.cpp 20-26) on the task at address
`self`: `if (m_result != nullptr) m_result->setValue(run());`. -/
def Task.exec {Ty : Type} [CppTypes Ty] (self : TaskPtr) (h : Heap Ty) : Heap Ty :=
  match h.tasks[self]? with
  | none => h
  | some t =>
    match t.m_result with
    | none => h
    | some result => h.setValue result t.run

/-- The call `result.get()` on the `Result` at address `result`. -/
def Heap.get {Ty : Type} [CppTypes Ty] (h : Heap Ty) (result : ResultPtr) :
    Option (Any Ty × Heap Ty) :=
  match h.results[result]? with
  | none => none
  | some r =>
    match r.get with
    | none => none
    | some (value, r1) => some (value, { h with results := h.results.set result r1 })

/-! ## `class Thread` and the members of `class ThreadPool` -/

/-- The enumeration `PoolMode`. -/
inductive PoolMode where
  | MODE_FIXED
  | MODE_CACHED
  deriving DecidableEq, Repr

/-- The constant `TASK_MAX_THRESHHOLD` (threadpool.cpp 5). -/
def TASK_MAX_THRESHHOLD : Int := 1024

/-- The constant `THREAD_MAX_THRESHHOLD` (threadpool.cpp 6). -/
def THREAD_MAX_THRESHHOLD : Int := 10

/-- The class `Thread`: `m_func` is always `ThreadPool::threadFunc` bound to the
pool, so only `m_threadId` is kept. -/
structure Thread where
  m_threadId : Int
  deriving DecidableEq, Repr

/-- The data members of `ThreadPool` guarded by `m_taskQueMtx` (threadpool.h
222-246). `m_threads` is the `unordered_map<int, unique_ptr<Thread>>` as an
association list with pairwise distinct keys; `m_taskQueue` is the FIFO, front
first, of `shared_ptr<Task>`. -/
structure ThreadPool where
  m_threads : List (Int × Thread)
  m_initThreadSize : Int
  m_threadSizeMaxThreshHold : Int
  m_curThreadSize : Int
  m_idleThreadSize : Int
  m_taskQueue : List TaskPtr
  m_taskQueueSize : Int
  m_taskQueMaxThreshHold : Int
  m_poolMode : PoolMode
  m_isPoolRunning : Bool
  deriving DecidableEq, Repr

/-- The constructor `ThreadPool::ThreadPool()` (threadpool.cpp 87-97). -/
def ThreadPool.init : ThreadPool :=
  { m_threads := []
    m_initThreadSize := 0
    m_threadSizeMaxThreshHold := THREAD_MAX_THRESHHOLD
    m_curThreadSize := 0
    m_idleThreadSize := 0
    m_taskQueue := []
    m_taskQueueSize := 0
    m_taskQueMaxThreshHold := TASK_MAX_THRESHHOLD
    m_poolMode := PoolMode.MODE_FIXED
    m_isPoolRunning := false }

/-- The keys of the worker registry. -/
def registryIds (m : List (Int × Thread)) : List Int :=
  m.map Prod.fst

/-- The call `m_threads.emplace(threadId, std::move(ptr))`: inserts only when the
key is not yet present. -/
def emplace (threadId : Int) (ptr : Thread) (m : List (Int × Thread)) :
    List (Int × Thread) :=
  if threadId ∈ registryIds m then m else m ++ [(threadId, ptr)]

/-- The call `m_threads.erase(threadId)`. -/
def erase (threadId : Int) (m : List (Int × Thread)) : List (Int × Thread) :=
  m.filter (fun e => e.1 ≠ threadId)

/-- The conversion `(size_t)x` of an `int` on a 64-bit target. -/
def toSizeT (x : Int) : Nat :=
  (x % ((2 ^ 64 : Nat) : Int)).toNat

/-- The member `ThreadPool::checkRunningState`. -/
def ThreadPool.checkRunningState (self : ThreadPool) : Bool :=
  self.m_isPoolRunning

/-- The member `ThreadPool::setMode` (threadpool.cpp 113-120). -/
def ThreadPool.setMode (self : ThreadPool) (mode : PoolMode) : ThreadPool :=
  if self.checkRunningState then self
  else { self with m_poolMode := mode }

/-- The member `ThreadPool::setThreadSizeMaxThreshHold` (threadpool.cpp 123-133). -/
def ThreadPool.setThreadSizeMaxThreshHold (self : ThreadPool) (threshhold : Int) :
    ThreadPool :=
  if self.checkRunningState then self
  else if self.m_poolMode = PoolMode.MODE_CACHED then
    { self with m_threadSizeMaxThreshHold := threshhold }
  else self

/-- The member `ThreadPool::setTaskQueMaskThreshHold` (threadpool.cpp 136-143). -/
def ThreadPool.setTaskQueMaskThreshHold (self : ThreadPool) (threshhold : Int) :
    ThreadPool :=
  if self.checkRunningState then self
  else { self with m_taskQueMaxThreshHold := threshhold }

/-! ## The whole system -/

/-- The state of the process as far as one pool is concerned: the pool, the
static counter `Thread::s_generateId`, the detached OS threads running
`threadFunc` and the heap. `idleThreads` lists the `threadId` argument of the
threads that are not executing a task (at the head of the loop or blocked on
`m_notEmpty`); `busyThreads` lists, for the threads between the end of the
critical section and `m_idleThreadSize++`, the argument and the local
`task`. -/
structure World (Ty : Type) [CppTypes Ty] where
  pool : ThreadPool
  s_generateId : Int
  idleThreads : List Int
  busyThreads : List (Int × TaskPtr)
  heap : Heap Ty

/-- A freshly constructed pool in a process whose id counter stands at `g`. -/
def World.init {Ty : Type} [CppTypes Ty] (g : Int) (heap : Heap Ty) : World Ty :=
  { pool := ThreadPool.init, s_generateId := g, idleThreads := [], busyThreads := [],
    heap := heap }

/-- The constructor `Thread::Thread(ThreadFunc func)`: `m_threadId(s_generateId++)`. -/
def Thread.init {Ty : Type} [CppTypes Ty] (w : World Ty) : Thread × World Ty :=
  ({ m_threadId := w.s_generateId }, { w with s_generateId := w.s_generateId + 1 })

/-- The member `Thread::start`: a detached `std::thread t(m_func, m_threadId)`. -/
def Thread.start {Ty : Type} [CppTypes Ty] (self : Thread) (w : World Ty) : World Ty :=
  { w with idleThreads := w.idleThreads ++ [self.m_threadId] }

/-- The first loop of `ThreadPool::start` (threadpool.cpp 156-163), `k` iterations
to go: construct a `Thread` and `emplace` it under its id. -/
def startCreate {Ty : Type} [CppTypes Ty] : Nat → World Ty → World Ty
  | 0, w => w
  | k + 1, w =>
    let c := Thread.init w
    startCreate k
      { c.2 with pool := { c.2.pool with
          m_threads := emplace c.1.m_threadId c.1 c.2.pool.m_threads } }

/-- The second loop of `ThreadPool::start` (threadpool.cpp 166-170) from index `i`
with `k` iterations to go: `m_threads[i]->start(); m_idleThreadSize++;`. When
the key `i` is absent, `operator[]` inserts a null `unique_ptr` and `->`
dereferences it: no defined successor. -/
def startLaunch {Ty : Type} [CppTypes Ty] : Int → Nat → World Ty → Option (World Ty)
  | _, 0, w => some w
  | i, k + 1, w =>
    match w.pool.m_threads.lookup i with
    | none => none
    | some th =>
      let w1 := th.start w
      startLaunch (i + 1) k
        { w1 with pool := { w1.pool with m_idleThreadSize := w1.pool.m_idleThreadSize + 1 } }

/-- The first half of `ThreadPool::start` (threadpool.cpp 149-163): set the
running flag, record `initThreadSize` in `m_initThreadSize` and
`m_curThreadSize`, then run the loop that creates the `Thread` objects. -/
def startRegister {Ty : Type} [CppTypes Ty] (initThreadSize : Int) (w : World Ty) : World Ty :=
  startCreate initThreadSize.toNat
    { w with pool := { w.pool with
        m_isPoolRunning := true
        m_initThreadSize := initThreadSize
        m_curThreadSize := initThreadSize } }

/-- The member `ThreadPool::start` (threadpool.cpp 146-171): the first half, then
the loop that launches `m_threads[0]`, ..., `m_threads[initThreadSize - 1]`.
This is a call during which no other thread takes a step; `start` holds no
lock, and `startAdvance` below executes it one statement at a time. -/
def ThreadPool.start {Ty : Type} [CppTypes Ty] (initThreadSize : Int) (w : World Ty) :
    Option (World Ty) :=
  startLaunch 0 initThreadSize.toNat (startRegister initThreadSize w)

/-- The predicate of the `wait_for` in `submitTask` (threadpool.cpp 184-185):
`m_taskQueue.size() < (size_t)m_taskQueMaxThreshHold`. -/
def ThreadPool.notFull (self : ThreadPool) : Bool :=
  decide (self.m_taskQueue.length < toSizeT self.m_taskQueMaxThreshHold)

/-- The test that guards the creation of a worker in `submitTask`
(threadpool.cpp 203-205). -/
def ThreadPool.wantsWorker (self : ThreadPool) : Bool :=
  decide (self.m_poolMode = PoolMode.MODE_CACHED) &&
    decide (self.m_taskQueueSize > self.m_idleThreadSize) &&
    decide (self.m_curThreadSize < self.m_threadSizeMaxThreshHold)

/-- The body of the `if` at threadpool.cpp 206-220: construct a `Thread`,
`emplace` it, `m_threads[threadId]->start()`, then increment both counters. The
lookup finds the entry that `emplace` left under `threadId`. -/
def submitSpawn {Ty : Type} [CppTypes Ty] (w : World Ty) : World Ty :=
  let c := Thread.init w
  let threads := emplace c.1.m_threadId c.1 c.2.pool.m_threads
  let started := (threads.lookup c.1.m_threadId).getD c.1
  let w1 := started.start c.2
  { w1 with pool := { w1.pool with
      m_threads := threads
      m_idleThreadSize := w1.pool.m_idleThreadSize + 1
      m_curThreadSize := w1.pool.m_curThreadSize + 1 } }

/-- The member `ThreadPool::submitTask` (threadpool.cpp 175-224), from the moment
`wait_for` returns with the lock held: the predicate is the one evaluated on
the state the rest of the function acts on. Returns the address of the
returned `Result`. -/
def ThreadPool.submitTask {Ty : Type} [CppTypes Ty] (sp : TaskPtr) (w : World Ty) :
    ResultPtr × World Ty :=
  if !w.pool.notFull then
    let r := Result.init sp false w.heap
    (r.1, { w with heap := r.2 })
  else
    let w1 : World Ty :=
      { w with pool := { w.pool with
          m_taskQueue := w.pool.m_taskQueue ++ [sp]
          m_taskQueueSize := w.pool.m_taskQueueSize + 1 } }
    let w2 := if w1.pool.wantsWorker then submitSpawn w1 else w1
    let r := Result.init sp true w2.heap
    (r.1, { w2 with heap := r.2 })

/-- The first statement of `ThreadPool::~ThreadPool` (threadpool.cpp 102); the
rest of the destructor waits until the registry is empty. -/
def ThreadPool.destructor {Ty : Type} [CppTypes Ty] (w : World Ty) : World Ty :=
  { w with pool := { w.pool with m_isPoolRunning := false } }

/-! ## `ThreadPool::threadFunc`, one critical section at a time -/

/-- The idle thread at position `j` finds the queue non-empty and takes the front
task (threadpool.cpp 247, 294-301). -/
def threadFuncTake {Ty : Type} [CppTypes Ty] (j : Nat) (w : World Ty) : Option (World Ty) :=
  match w.idleThreads[j]?, w.pool.m_taskQueue with
  | some threadId, task :: rest =>
    some { w with
      pool := { w.pool with
        m_idleThreadSize := w.pool.m_idleThreadSize - 1
        m_taskQueue := rest
        m_taskQueueSize := w.pool.m_taskQueueSize - 1 }
      idleThreads := w.idleThreads.eraseIdx j
      busyThreads := w.busyThreads ++ [(threadId, task)] }
  | _, _ => none

/-- The busy thread at position `j` executes its task and becomes idle again
(threadpool.cpp 315-323): `task->exec(); m_idleThreadSize++;`. -/
def threadFuncRun {Ty : Type} [CppTypes Ty] (j : Nat) (w : World Ty) : Option (World Ty) :=
  match w.busyThreads[j]? with
  | some (threadId, task) =>
    some { w with
      pool := { w.pool with m_idleThreadSize := w.pool.m_idleThreadSize + 1 }
      idleThreads := w.idleThreads ++ [threadId]
      busyThreads := w.busyThreads.eraseIdx j
      heap := Task.exec task w.heap }
  | none => none

/-- The idle thread at position `j` retires after a timed-out wait (threadpool.cpp
247-275): the queue is empty, the pool is running, the mode is `MODE_CACHED`
and `m_curThreadSize > m_initThreadSize`. The elapsed-time test is not
modelled. -/
def threadFuncRetire {Ty : Type} [CppTypes Ty] (j : Nat) (w : World Ty) :
    Option (World Ty) :=
  match w.idleThreads[j]? with
  | some threadId =>
    if w.pool.m_taskQueue.length = 0 ∧ w.pool.m_isPoolRunning = true ∧
        w.pool.m_poolMode = PoolMode.MODE_CACHED ∧
        w.pool.m_curThreadSize > w.pool.m_initThreadSize then
      some { w with
        pool := { w.pool with
          m_threads := erase threadId w.pool.m_threads
          m_curThreadSize := w.pool.m_curThreadSize - 1
          m_idleThreadSize := w.pool.m_idleThreadSize - 1 }
        idleThreads := w.idleThreads.eraseIdx j }
    else none
  | none => none

/-- The idle thread at position `j` finds the queue empty and the pool not running
(threadpool.cpp 247-255): it erases itself from the registry and returns. -/
def threadFuncExit {Ty : Type} [CppTypes Ty] (j : Nat) (w : World Ty) : Option (World Ty) :=
  match w.idleThreads[j]? with
  | some threadId =>
    if w.pool.m_taskQueue.length = 0 ∧ w.pool.m_isPoolRunning = false then
      some { w with
        pool := { w.pool with m_threads := erase threadId w.pool.m_threads }
        idleThreads := w.idleThreads.eraseIdx j }
    else none
  | none => none

/-! ## Executions -/

/-- The public operations of the pool and the steps of its worker threads. -/
inductive Op where
  | setMode (mode : PoolMode)
  | setThreadSizeMaxThreshHold (threshhold : Int)
  | setTaskQueMaskThreshHold (threshhold : Int)
  | start (initThreadSize : Int)
  | submitTask (sp : TaskPtr)
  | destructor
  | take (j : Nat)
  | run (j : Nat)
  | retire (j : Nat)
  | exit (j : Nat)
  deriving DecidableEq, Repr

/-- One operation on the world; `none` when it has no defined successor (a
worker step that is not enabled, or a null dereference in `start`). -/
def step {Ty : Type} [CppTypes Ty] (op : Op) (w : World Ty) : Option (World Ty) :=
  match op with
  | .setMode mode => some { w with pool := w.pool.setMode mode }
  | .setThreadSizeMaxThreshHold t =>
    some { w with pool := w.pool.setThreadSizeMaxThreshHold t }
  | .setTaskQueMaskThreshHold t =>
    some { w with pool := w.pool.setTaskQueMaskThreshHold t }
  | .start n => ThreadPool.start n w
  | .submitTask sp => some (ThreadPool.submitTask sp w).2
  | .destructor => some (ThreadPool.destructor w)
  | .take j => threadFuncTake j w
  | .run j => threadFuncRun j w
  | .retire j => threadFuncRetire j w
  | .exit j => threadFuncExit j w

/-- Runs a sequence of operations, each of which must pass `ok` in the state it
is applied to. -/
def runWith {Ty : Type} [CppTypes Ty] (ok : Op → World Ty → Bool) :
    List Op → World Ty → Option (World Ty)
  | [], w => some w
  | op :: ops, w =>
    if ok op w then
      match step op w with
      | none => none
      | some w1 => runWith ok ops w1
    else none

/-- Runs a sequence of operations with no restriction. -/
def runOps {Ty : Type} [CppTypes Ty] (ops : List Op) (w : World Ty) : Option (World Ty) :=
  runWith (fun _ _ => true) ops w

/-- The states an execution from a freshly constructed pool can reach. -/
def Reachable {Ty : Type} [CppTypes Ty] (w : World Ty) : Prop :=
  ∃ (g : Int) (heap : Heap Ty) (ops : List Op), runOps ops (World.init g heap) = some w

/-- Whether the `Result` at address `p` is valid; `none` when there is no such
object. -/
def handleValid {Ty : Type} [CppTypes Ty] (w : World Ty) (p : ResultPtr) : Option Bool :=
  (w.heap.results[p]?).map (fun r => r.m_isValid)

/-! ## Restrictions on executions and invariants -/

/-- Executions in which every `setTaskQueMaskThreshHold` that takes effect (the
pool is not running) is given at least the current length of the queue. -/
def okQueue {Ty : Type} [CppTypes Ty] (op : Op) (w : World Ty) : Bool :=
  match op with
  | .setTaskQueMaskThreshHold t =>
    w.pool.m_isPoolRunning || decide ((w.pool.m_taskQueue.length : Int) ≤ t)
  | _ => true

/-- The restriction on the operations of `Op`: a one-step `start n` is called with
`0 ≤ n ≤` ceiling while no thread is executing a task and
`m_idleThreadSize = 0`, and every `setThreadSizeMaxThreshHold` that takes
effect (pool not running, mode `MODE_CACHED`) is given at least
`m_curThreadSize`. -/
def okWorkers {Ty : Type} [CppTypes Ty] (op : Op) (w : World Ty) : Bool :=
  match op with
  | .start n =>
    w.busyThreads.isEmpty && decide (w.pool.m_idleThreadSize = 0) &&
      decide (0 ≤ n) && decide (n ≤ w.pool.m_threadSizeMaxThreshHold)
  | .setThreadSizeMaxThreshHold t =>
    w.pool.m_isPoolRunning || decide (w.pool.m_poolMode = PoolMode.MODE_FIXED) ||
      decide (w.pool.m_curThreadSize ≤ t)
  | _ => true

/-- Executions without a call of `start`. -/
def okNoStart {Ty : Type} [CppTypes Ty] (op : Op) (_w : World Ty) : Bool :=
  match op with
  | .start _ => false
  | _ => true

/-- Executions made of `submitTask` calls and of workers taking tasks: no task
finishes, no worker leaves. -/
def okSubmitTake {Ty : Type} [CppTypes Ty] (op : Op) (_w : World Ty) : Bool :=
  match op with
  | .submitTask _ => true
  | .take _ => true
  | _ => false

/-- The number of `submitTask` calls in a sequence of operations. -/
def countSubmits : List Op → Nat
  | [] => 0
  | .submitTask _ :: ops => countSubmits ops + 1
  | _ :: ops => countSubmits ops

/-- The counter `m_taskQueueSize` equals the length of `m_taskQueue`. -/
def SizeInv {Ty : Type} [CppTypes Ty] (w : World Ty) : Prop :=
  w.pool.m_taskQueueSize = w.pool.m_taskQueue.length

/-- The counter equals the queue length, and both stay within a non-negative
capacity. -/
def QueueInv {Ty : Type} [CppTypes Ty] (w : World Ty) : Prop :=
  w.pool.m_taskQueueSize = w.pool.m_taskQueue.length ∧
  0 ≤ w.pool.m_taskQueMaxThreshHold ∧
  w.pool.m_taskQueueSize ≤ w.pool.m_taskQueMaxThreshHold

/-- The worker counters against the threads that exist: `m_curThreadSize` is
within the ceiling, every idle thread is counted in `m_idleThreadSize`, and the
difference of the two counters is the number of threads executing a task. -/
def WorkerInv {Ty : Type} [CppTypes Ty] (w : World Ty) : Prop :=
  w.pool.m_curThreadSize ≤ w.pool.m_threadSizeMaxThreshHold ∧
  (w.idleThreads.length : Int) ≤ w.pool.m_idleThreadSize ∧
  w.pool.m_curThreadSize - w.pool.m_idleThreadSize = w.busyThreads.length

/-- Every id in the registry was handed out by `s_generateId` before. -/
def IdsBelow {Ty : Type} [CppTypes Ty] (w : World Ty) : Prop :=
  ∀ k ∈ registryIds w.pool.m_threads, k < w.s_generateId

/-- While the pool runs it is in `MODE_FIXED` with both thread counts equal to `n`. -/
def FixedInv {Ty : Type} [CppTypes Ty] (n : Int) (w : World Ty) : Prop :=
  w.pool.m_isPoolRunning = true →
    w.pool.m_poolMode = PoolMode.MODE_FIXED ∧ w.pool.m_curThreadSize = n ∧
      w.pool.m_initThreadSize = n

/-- The bookkeeping of a `MODE_CACHED` pool started with two workers and default
thresholds after `s` submissions, none of whose tasks has finished. -/
def GrowthInv {Ty : Type} [CppTypes Ty] (s : Nat) (w : World Ty) : Prop :=
  w.pool.m_poolMode = PoolMode.MODE_CACHED ∧
  w.pool.m_threadSizeMaxThreshHold = 10 ∧
  w.pool.m_taskQueMaxThreshHold = 1024 ∧
  w.pool.m_taskQueue.length ≤ s ∧
  w.pool.m_taskQueueSize - w.pool.m_idleThreadSize = s - w.pool.m_curThreadSize ∧
  w.pool.m_curThreadSize = (if s < 3 then 2 else 3)

/-! ## `ThreadPool::start`, one statement at a time -/

/-- Where a call of `ThreadPool::start` stands. `start` takes no lock, so worker
threads run between its statements. `assignInit n`: about to execute
`m_initThreadSize = n` (line 152); `assignCur n`: about to execute
`m_curThreadSize = n` (line 153); `create i`: at the test of the first loop with
index `i` (line 156); `launch i`: at the test of the second loop with index `i`
(line 166); `count i`: between `m_threads[i]->start()` (line 168) and
`m_idleThreadSize++` (line 169). -/
inductive StartPc where
  | assignInit (initThreadSize : Int)
  | assignCur (initThreadSize : Int)
  | create (i : Int)
  | launch (i : Int)
  | count (i : Int)
  deriving DecidableEq, Repr

/-- The world together with the position of the call of `start` in progress, if
any. -/
structure FineWorld (Ty : Type) [CppTypes Ty] where
  world : World Ty
  startPc : Option StartPc

/-- A freshly constructed pool, no call in progress. -/
def FineWorld.init {Ty : Type} [CppTypes Ty] (g : Int) (heap : Heap Ty) : FineWorld Ty :=
  { world := World.init g heap, startPc := none }

/-- The steps of the fine-grained executions: an operation of `Op` other than
`start`, the entry into `start`, and the next statement of the call of `start`
in progress. -/
inductive FineOp where
  | atomic (op : Op)
  | startCall (initThreadSize : Int)
  | startAdvance
  deriving DecidableEq, Repr

/-- The next statement of the call of `start` in progress (threadpool.cpp
152-170). The loops read `m_initThreadSize` at every test, as the source
does. -/
def startAdvance {Ty : Type} [CppTypes Ty] (s : FineWorld Ty) : Option (FineWorld Ty) :=
  match s.startPc with
  | none => none
  | some (.assignInit n) =>
    some { world := { s.world with pool := { s.world.pool with m_initThreadSize := n } },
           startPc := some (.assignCur n) }
  | some (.assignCur n) =>
    some { world := { s.world with pool := { s.world.pool with m_curThreadSize := n } },
           startPc := some (.create 0) }
  | some (.create i) =>
    if i < s.world.pool.m_initThreadSize then
      some { world := startCreate 1 s.world, startPc := some (.create (i + 1)) }
    else some { s with startPc := some (.launch 0) }
  | some (.launch i) =>
    if i < s.world.pool.m_initThreadSize then
      match s.world.pool.m_threads.lookup i with
      | none => none
      | some th => some { world := th.start s.world, startPc := some (.count i) }
    else some { s with startPc := none }
  | some (.count i) =>
    some { world := { s.world with pool := { s.world.pool with
             m_idleThreadSize := s.world.pool.m_idleThreadSize + 1 } },
           startPc := some (.launch (i + 1)) }

/-- One step of a fine-grained execution. `startCall n` enters `start` and executes
`m_isPoolRunning = true` (line 149); it is defined when no other call of `start`
is in progress. The one-step `Op.start` is not a step here. -/
def fineStep {Ty : Type} [CppTypes Ty] (fop : FineOp) (s : FineWorld Ty) :
    Option (FineWorld Ty) :=
  match fop with
  | .atomic (.start _) => none
  | .atomic op => (step op s.world).map (fun w => { s with world := w })
  | .startCall n =>
    match s.startPc with
    | none =>
      some { world := { s.world with pool := { s.world.pool with m_isPoolRunning := true } },
             startPc := some (.assignInit n) }
    | some _ => none
  | .startAdvance => startAdvance s

/-- Runs a sequence of fine-grained steps, each of which must pass `ok` in the
state it is applied to. -/
def runFine {Ty : Type} [CppTypes Ty] (ok : FineOp → FineWorld Ty → Bool) :
    List FineOp → FineWorld Ty → Option (FineWorld Ty)
  | [], s => some s
  | fop :: fops, s =>
    if ok fop s then
      match fineStep fop s with
      | none => none
      | some s1 => runFine ok fops s1
    else none

/-- Runs a sequence of fine-grained steps with no restriction. -/
def runFineOps {Ty : Type} [CppTypes Ty] (fops : List FineOp) (s : FineWorld Ty) :
    Option (FineWorld Ty) :=
  runFine (fun _ _ => true) fops s

/-- The steps of worker threads, as opposed to calls of the public interface. -/
def isWorkerStep : Op → Bool
  | .take _ => true
  | .run _ => true
  | .retire _ => true
  | .exit _ => true
  | _ => false

/-- Fine-grained executions in which worker steps occur anywhere, public
operations are called one at a time (none while a call of `start` is in
progress), `start n` is entered only with `0 ≤ n ≤` ceiling on a pool with an
empty task queue, no thread executing a task and `m_idleThreadSize = 0`, and
every `setThreadSizeMaxThreshHold` that takes effect is given at least
`m_curThreadSize`. -/
def okFine {Ty : Type} [CppTypes Ty] (fop : FineOp) (s : FineWorld Ty) : Bool :=
  match fop with
  | .atomic op => isWorkerStep op || (s.startPc.isNone && okWorkers op s.world)
  | .startCall n =>
    s.startPc.isNone && s.world.busyThreads.isEmpty && s.world.pool.m_taskQueue.isEmpty &&
      decide (s.world.pool.m_idleThreadSize = 0) && decide (0 ≤ n) &&
      decide (n ≤ s.world.pool.m_threadSizeMaxThreshHold)
  | .startAdvance => true

/-- No thread executes a task and no task is queued. -/
def Quiet {Ty : Type} [CppTypes Ty] (w : World Ty) : Prop :=
  w.busyThreads = [] ∧ w.pool.m_taskQueue = []

/-- The worker counters against the threads that exist, at every position of a
call of `start`. -/
def FineInv {Ty : Type} [CppTypes Ty] (s : FineWorld Ty) : Prop :=
  match s.startPc with
  | none => WorkerInv s.world
  | some (.assignInit n) =>
    Quiet s.world ∧ 0 ≤ n ∧ n ≤ s.world.pool.m_threadSizeMaxThreshHold ∧
      s.world.pool.m_idleThreadSize = 0 ∧ s.world.pool.m_curThreadSize = 0 ∧
      s.world.idleThreads.length = 0
  | some (.assignCur n) =>
    Quiet s.world ∧ 0 ≤ n ∧ n ≤ s.world.pool.m_threadSizeMaxThreshHold ∧
      s.world.pool.m_idleThreadSize = 0 ∧ s.world.pool.m_curThreadSize = 0 ∧
      s.world.idleThreads.length = 0 ∧ s.world.pool.m_initThreadSize = n
  | some (.create _) =>
    Quiet s.world ∧ s.world.pool.m_curThreadSize ≤ s.world.pool.m_threadSizeMaxThreshHold ∧
      0 ≤ s.world.pool.m_curThreadSize ∧
      s.world.pool.m_curThreadSize = s.world.pool.m_initThreadSize ∧
      s.world.pool.m_idleThreadSize = 0 ∧ s.world.idleThreads.length = 0
  | some (.launch i) =>
    Quiet s.world ∧ s.world.pool.m_curThreadSize ≤ s.world.pool.m_threadSizeMaxThreshHold ∧
      s.world.pool.m_curThreadSize = s.world.pool.m_initThreadSize ∧
      0 ≤ i ∧ i ≤ s.world.pool.m_initThreadSize ∧ s.world.pool.m_idleThreadSize = i ∧
      (s.world.idleThreads.length : Int) ≤ i
  | some (.count i) =>
    Quiet s.world ∧ s.world.pool.m_curThreadSize ≤ s.world.pool.m_threadSizeMaxThreshHold ∧
      s.world.pool.m_curThreadSize = s.world.pool.m_initThreadSize ∧
      0 ≤ i ∧ i < s.world.pool.m_initThreadSize ∧ s.world.pool.m_idleThreadSize = i ∧
      (s.world.idleThreads.length : Int) ≤ i + 1

/-! ## Concrete objects -/

/-- An empty heap over the concrete return types. -/
def noHeap : Heap BasicTy :=
  { tasks := [], results := [] }

/-- A heap with three tasks returning the `unsigned long long` values 10, 20, 30. -/
def threeTasks : Heap BasicTy :=
  { tasks := [Task.init (Any.of BasicTy.uLong (10 : Nat)),
              Task.init (Any.of BasicTy.uLong (20 : Nat)),
              Task.init (Any.of BasicTy.uLong (30 : Nat))],
    results := [] }

/-- The object `Result(sp, false)` for the task at address 0. -/
def invalidHandle : Result BasicTy :=
  { m_value := Any.empty, m_sem := semaphore.init 0, m_task := 0, m_isValid := false }

/-! ## Auxiliary facts -/

/-- A valid handle with a fresh semaphore that has just been completed hands its
value to `get` and is left drained. -/
theorem get_after_setValue {Ty : Type} [CppTypes Ty] (res : Result Ty) (a : Any Ty)
    (hvalid : res.m_isValid = true) (hsem : res.m_sem = semaphore.init 0) :
    (res.setValue a).get =
      some (a, { res with m_value := Any.empty, m_sem := semaphore.init 0 }) := by
  simp [Result.get, Result.setValue, hvalid, hsem, semaphore.init, semaphore.post,
    semaphore.wait, Any.move, Any.empty]

/-- A valid handle whose semaphore has no permit blocks in `get`. -/
theorem get_blocks_when_drained {Ty : Type} [CppTypes Ty] (res : Result Ty)
    (hvalid : res.m_isValid = true) (hsem : res.m_sem = semaphore.init 0) :
    res.get = none := by
  simp [Result.get, hvalid, hsem, semaphore.init, semaphore.wait]

/-- A property kept by every permitted step holds after every permitted run. -/
theorem runWith_preserves {Ty : Type} [CppTypes Ty] (ok : Op → World Ty → Bool)
    (P : World Ty → Prop)
    (hstep : ∀ op w w1, ok op w = true → P w → step op w = some w1 → P w1) :
    ∀ (ops : List Op) (w w2 : World Ty), P w → runWith ok ops w = some w2 → P w2 := by
  intro ops
  induction ops with
  | nil =>
    intro w w2 hP hrun
    simp [runWith] at hrun
    subst hrun
    exact hP
  | cons op ops ih =>
    intro w w2 hP hrun
    simp only [runWith] at hrun
    split at hrun
    · rename_i hok
      cases hs : step op w with
      | none => simp [hs] at hrun
      | some w1 =>
        simp only [hs] at hrun
        exact ih w1 w2 (hstep op w w1 hok hP hs) hrun
    · simp at hrun

/-- The creation loop of `start` touches only the registry and the id counter. -/
theorem startCreate_frame {Ty : Type} [CppTypes Ty] (k : Nat) (w : World Ty) :
    (startCreate k w).pool = { w.pool with m_threads := (startCreate k w).pool.m_threads } ∧
    (startCreate k w).idleThreads = w.idleThreads ∧
    (startCreate k w).busyThreads = w.busyThreads ∧
    (startCreate k w).heap = w.heap ∧
    (startCreate k w).s_generateId = w.s_generateId + k := by
  induction k generalizing w with
  | zero => simp [startCreate]
  | succ k ih =>
    simp only [startCreate]
    obtain ⟨h1, h2, h3, h4, h5⟩ := ih
      { (Thread.init w).2 with pool := { (Thread.init w).2.pool with
          m_threads := emplace (Thread.init w).1.m_threadId (Thread.init w).1
            (Thread.init w).2.pool.m_threads } }
    refine ⟨?_, ?_, ?_, ?_, ?_⟩
    · rw [h1]; simp [Thread.init]
    · rw [h2]; simp [Thread.init]
    · rw [h3]; simp [Thread.init]
    · rw [h4]; simp [Thread.init]
    · rw [h5]; simp [Thread.init]; omega

/-- The launch loop of `start`, when defined, adds `k` idle threads and adds `k` to
`m_idleThreadSize`; nothing else changes. -/
theorem startLaunch_frame {Ty : Type} [CppTypes Ty] (k : Nat) :
    ∀ (i : Int) (w w2 : World Ty), startLaunch i k w = some w2 →
      w2.pool = { w.pool with m_idleThreadSize := w.pool.m_idleThreadSize + k } ∧
      w2.idleThreads.length = w.idleThreads.length + k ∧
      w2.busyThreads = w.busyThreads ∧
      w2.heap = w.heap ∧
      w2.s_generateId = w.s_generateId := by
  induction k with
  | zero =>
    intro i w w2 h
    simp [startLaunch] at h
    subst h
    simp
  | succ k ih =>
    intro i w w2 h
    simp only [startLaunch] at h
    split at h
    · simp at h
    · rename_i th hth
      obtain ⟨h1, h2, h3, h4, h5⟩ := ih _ _ _ h
      refine ⟨?_, ?_, ?_, ?_, ?_⟩
      · rw [h1]; simp [Thread.start]; omega
      · rw [h2]; simp [Thread.start]; omega
      · rw [h3]; simp [Thread.start]
      · rw [h4]; simp [Thread.start]
      · rw [h5]; simp [Thread.start]

/-- What `start` changes when it is defined. -/
theorem start_frame {Ty : Type} [CppTypes Ty] (n : Int) (w w2 : World Ty)
    (h : ThreadPool.start n w = some w2) :
    w2.pool = { w.pool with
      m_isPoolRunning := true
      m_initThreadSize := n
      m_curThreadSize := n
      m_idleThreadSize := w.pool.m_idleThreadSize + n.toNat
      m_threads := w2.pool.m_threads } ∧
    w2.idleThreads.length = w.idleThreads.length + n.toNat ∧
    w2.busyThreads = w.busyThreads ∧
    w2.heap = w.heap ∧
    w2.s_generateId = w.s_generateId + n.toNat := by
  simp only [ThreadPool.start, startRegister] at h
  obtain ⟨h1, h2, h3, h4, h5⟩ := startLaunch_frame _ _ _ _ h
  obtain ⟨c1, c2, c3, c4, c5⟩ := startCreate_frame n.toNat
    { w with pool := { w.pool with
        m_isPoolRunning := true
        m_initThreadSize := n
        m_curThreadSize := n } }
  refine ⟨?_, ?_, ?_, ?_, ?_⟩
  · rw [h1, c1]
  · rw [h2, c2]
  · rw [h3, c3]
  · rw [h4, c4]
  · rw [h5, c5]

/-- The flag, mode and thread counts after a defined `start`. -/
theorem start_fields {Ty : Type} [CppTypes Ty] (n : Int) (w w1 : World Ty)
    (h : ThreadPool.start n w = some w1) :
    w1.pool.m_isPoolRunning = true ∧ w1.pool.m_poolMode = w.pool.m_poolMode ∧
      w1.pool.m_curThreadSize = n ∧ w1.pool.m_initThreadSize = n := by
  obtain ⟨f1, -⟩ := start_frame n w w1 h
  rw [f1]
  simp

/-- The conversion to `size_t` does not enlarge a non-negative `int`. -/
theorem toSizeT_le_of_nonneg (x : Int) (hx : 0 ≤ x) : (toSizeT x : Int) ≤ x := by
  unfold toSizeT
  omega

/-- The pool after `submitTask`, by cases on the two tests of the source. -/
theorem submit_frame {Ty : Type} [CppTypes Ty] (sp : TaskPtr) (w : World Ty) :
    (ThreadPool.submitTask sp w).2.pool =
      (if !w.pool.notFull then w.pool
       else if ({ w.pool with
            m_taskQueue := w.pool.m_taskQueue ++ [sp]
            m_taskQueueSize := w.pool.m_taskQueueSize + 1 } : ThreadPool).wantsWorker then
          { w.pool with
            m_taskQueue := w.pool.m_taskQueue ++ [sp]
            m_taskQueueSize := w.pool.m_taskQueueSize + 1
            m_threads := emplace w.s_generateId { m_threadId := w.s_generateId } w.pool.m_threads
            m_idleThreadSize := w.pool.m_idleThreadSize + 1
            m_curThreadSize := w.pool.m_curThreadSize + 1 }
       else
          { w.pool with
            m_taskQueue := w.pool.m_taskQueue ++ [sp]
            m_taskQueueSize := w.pool.m_taskQueueSize + 1 }) := by
  unfold ThreadPool.submitTask
  by_cases h1 : w.pool.notFull = true
  · simp only [h1, Bool.not_true, Bool.false_eq_true, if_false]
    split
    · simp [submitSpawn, Thread.init, Thread.start]
    · simp
  · simp [h1]

/-- The id counter after `submitTask`. -/
theorem submit_generateId {Ty : Type} [CppTypes Ty] (sp : TaskPtr) (w : World Ty) :
    (ThreadPool.submitTask sp w).2.s_generateId =
      (if !w.pool.notFull then w.s_generateId
       else if ({ w.pool with
            m_taskQueue := w.pool.m_taskQueue ++ [sp]
            m_taskQueueSize := w.pool.m_taskQueueSize + 1 } : ThreadPool).wantsWorker then
          w.s_generateId + 1
       else w.s_generateId) := by
  unfold ThreadPool.submitTask
  by_cases h1 : w.pool.notFull = true
  · simp only [h1, Bool.not_true, Bool.false_eq_true, if_false]
    split
    · simp [submitSpawn, Thread.init, Thread.start]
    · simp
  · simp [h1]

/-- The handle `submitTask` returns is valid exactly when the queue was not full. -/
theorem submit_handle {Ty : Type} [CppTypes Ty] (sp : TaskPtr) (w : World Ty) :
    handleValid (ThreadPool.submitTask sp w).2 (ThreadPool.submitTask sp w).1 =
      some w.pool.notFull := by
  unfold ThreadPool.submitTask handleValid
  by_cases hf : w.pool.notFull = true
  · simp only [hf, Bool.not_true, Bool.false_eq_true, if_false]
    split <;> simp [Result.init, submitSpawn, Thread.init, Thread.start]
  · simp only [Bool.not_eq_true] at hf
    simp [hf, Result.init]

/-- A rejected `submitTask` changes nothing but the heap. -/
theorem submit_rest {Ty : Type} [CppTypes Ty] (sp : TaskPtr) (w : World Ty)
    (hf : w.pool.notFull = false) :
    (ThreadPool.submitTask sp w).2.pool = w.pool ∧
    (ThreadPool.submitTask sp w).2.s_generateId = w.s_generateId ∧
    (ThreadPool.submitTask sp w).2.idleThreads = w.idleThreads ∧
    (ThreadPool.submitTask sp w).2.busyThreads = w.busyThreads := by
  simp [ThreadPool.submitTask, hf]

/-- Removing an existing position shortens a list by one. -/
theorem length_eraseIdx_of_lookup {α : Type} (l : List α) (j : Nat) (x : α)
    (h : l[j]? = some x) : ((l.eraseIdx j).length : Int) = l.length - 1 := by
  obtain ⟨hl, -⟩ := List.getElem?_eq_some.1 h
  rw [List.length_eraseIdx]
  simp [hl]
  omega

/-- Every step keeps the counter equal to the queue length. -/
theorem SizeInv_step {Ty : Type} [CppTypes Ty] (op : Op) (w w1 : World Ty)
    (hinv : SizeInv w) (hs : step op w = some w1) : SizeInv w1 := by
  unfold SizeInv at hinv
  cases op with
  | setMode mode =>
    simp only [step, Option.some.injEq] at hs
    subst hs
    simp only [SizeInv, ThreadPool.setMode]
    split <;> exact hinv
  | setThreadSizeMaxThreshHold t =>
    simp only [step, Option.some.injEq] at hs
    subst hs
    simp only [SizeInv, ThreadPool.setThreadSizeMaxThreshHold]
    split
    · exact hinv
    · split <;> exact hinv
  | setTaskQueMaskThreshHold t =>
    simp only [step, Option.some.injEq] at hs
    subst hs
    simp only [SizeInv, ThreadPool.setTaskQueMaskThreshHold]
    split <;> exact hinv
  | start n =>
    simp only [step] at hs
    obtain ⟨f1, -⟩ := start_frame n w w1 hs
    simp only [SizeInv]
    rw [f1]
    exact hinv
  | submitTask sp =>
    simp only [step, Option.some.injEq] at hs
    subst hs
    simp only [SizeInv]
    rw [submit_frame]
    by_cases hf : w.pool.notFull = true
    · simp only [hf, Bool.not_true, Bool.false_eq_true, if_false]
      split <;> simp <;> omega
    · simp only [hf, Bool.not_false, if_true]
      exact hinv
  | destructor =>
    simp only [step, Option.some.injEq] at hs
    subst hs
    exact hinv
  | take j =>
    simp only [step, threadFuncTake] at hs
    split at hs
    · rename_i threadId task rest hj hq
      simp only [Option.some.injEq] at hs
      subst hs
      simp only [SizeInv]
      rw [hq] at hinv
      simp at hinv
      omega
    · simp at hs
  | run j =>
    simp only [step, threadFuncRun] at hs
    split at hs
    · simp only [Option.some.injEq] at hs
      subst hs
      exact hinv
    · simp at hs
  | retire j =>
    simp only [step, threadFuncRetire] at hs
    split at hs
    · split at hs
      · simp only [Option.some.injEq] at hs
        subst hs
        exact hinv
      · simp at hs
    · simp at hs
  | exit j =>
    simp only [step, threadFuncExit] at hs
    split at hs
    · split at hs
      · simp only [Option.some.injEq] at hs
        subst hs
        exact hinv
      · simp at hs
    · simp at hs

/-- Every step that respects `okQueue` keeps the queue within its capacity. -/
theorem QueueInv_step {Ty : Type} [CppTypes Ty] (op : Op) (w w1 : World Ty)
    (hok : okQueue op w = true) (hinv : QueueInv w) (hs : step op w = some w1) :
    QueueInv w1 := by
  obtain ⟨h1, h2, h3⟩ := hinv
  cases op with
  | setMode mode =>
    simp only [step, Option.some.injEq] at hs
    subst hs
    simp only [QueueInv, ThreadPool.setMode]
    split <;> exact ⟨h1, h2, h3⟩
  | setThreadSizeMaxThreshHold t =>
    simp only [step, Option.some.injEq] at hs
    subst hs
    simp only [QueueInv, ThreadPool.setThreadSizeMaxThreshHold]
    split
    · exact ⟨h1, h2, h3⟩
    · split <;> exact ⟨h1, h2, h3⟩
  | setTaskQueMaskThreshHold t =>
    simp only [step, Option.some.injEq] at hs
    subst hs
    simp only [okQueue, Bool.or_eq_true, decide_eq_true_eq] at hok
    simp only [QueueInv, ThreadPool.setTaskQueMaskThreshHold, ThreadPool.checkRunningState]
    split
    · exact ⟨h1, h2, h3⟩
    · rename_i hr
      rcases hok with hok | hok
      · exact absurd hok hr
      · refine ⟨h1, ?_, ?_⟩ <;> simp only <;> omega
  | start n =>
    simp only [step] at hs
    obtain ⟨f1, -⟩ := start_frame n w w1 hs
    simp only [QueueInv]
    rw [f1]
    exact ⟨h1, h2, h3⟩
  | submitTask sp =>
    simp only [step, Option.some.injEq] at hs
    subst hs
    simp only [QueueInv]
    rw [submit_frame]
    by_cases hf : w.pool.notFull = true
    · have hlt : w.pool.m_taskQueue.length < toSizeT w.pool.m_taskQueMaxThreshHold := by
        simpa [ThreadPool.notFull] using hf
      have hle := toSizeT_le_of_nonneg _ h2
      simp only [hf, Bool.not_true, Bool.false_eq_true, if_false]
      split <;> simp <;> omega
    · simp only [hf, Bool.not_false, if_true]
      exact ⟨h1, h2, h3⟩
  | destructor =>
    simp only [step, Option.some.injEq] at hs
    subst hs
    exact ⟨h1, h2, h3⟩
  | take j =>
    simp only [step, threadFuncTake] at hs
    split at hs
    · rename_i threadId task rest hj hq
      simp only [Option.some.injEq] at hs
      subst hs
      simp only [QueueInv]
      rw [hq] at h1
      simp at h1
      refine ⟨?_, h2, ?_⟩ <;> omega
    · simp at hs
  | run j =>
    simp only [step, threadFuncRun] at hs
    split at hs
    · simp only [Option.some.injEq] at hs
      subst hs
      exact ⟨h1, h2, h3⟩
    · simp at hs
  | retire j =>
    simp only [step, threadFuncRetire] at hs
    split at hs
    · split at hs
      · simp only [Option.some.injEq] at hs
        subst hs
        exact ⟨h1, h2, h3⟩
      · simp at hs
    · simp at hs
  | exit j =>
    simp only [step, threadFuncExit] at hs
    split at hs
    · split at hs
      · simp only [Option.some.injEq] at hs
        subst hs
        exact ⟨h1, h2, h3⟩
      · simp at hs
    · simp at hs

/-- Every step that respects `okWorkers` keeps the worker counters consistent. -/
theorem WorkerInv_step {Ty : Type} [CppTypes Ty] (op : Op) (w w1 : World Ty)
    (hok : okWorkers op w = true) (hinv : WorkerInv w) (hs : step op w = some w1) :
    WorkerInv w1 := by
  obtain ⟨h1, h2, h3⟩ := hinv
  cases op with
  | setMode mode =>
    simp only [step, Option.some.injEq] at hs
    subst hs
    simp only [WorkerInv, ThreadPool.setMode]
    split <;> exact ⟨h1, h2, h3⟩
  | setThreadSizeMaxThreshHold t =>
    simp only [step, Option.some.injEq] at hs
    subst hs
    simp only [okWorkers, Bool.or_eq_true, decide_eq_true_eq] at hok
    simp only [WorkerInv, ThreadPool.setThreadSizeMaxThreshHold, ThreadPool.checkRunningState]
    split
    · exact ⟨h1, h2, h3⟩
    · rename_i hr
      split
      · rename_i hm
        rcases hok with (hok | hok) | hok
        · exact absurd hok hr
        · rw [hm] at hok
          exact absurd hok (by decide)
        · exact ⟨hok, h2, h3⟩
      · exact ⟨h1, h2, h3⟩
  | setTaskQueMaskThreshHold t =>
    simp only [step, Option.some.injEq] at hs
    subst hs
    simp only [WorkerInv, ThreadPool.setTaskQueMaskThreshHold]
    split <;> exact ⟨h1, h2, h3⟩
  | start n =>
    simp only [step] at hs
    obtain ⟨f1, f2, f3, -⟩ := start_frame n w w1 hs
    simp only [okWorkers, Bool.and_eq_true, decide_eq_true_eq, List.isEmpty_iff] at hok
    obtain ⟨⟨⟨g1, g2⟩, g3⟩, g4⟩ := hok
    simp only [WorkerInv]
    rw [f1, f2, f3, g1]
    rw [g1] at h3
    simp only [List.length_nil] at h3 ⊢
    refine ⟨g4, ?_, ?_⟩ <;> push_cast <;> omega
  | submitTask sp =>
    simp only [step, Option.some.injEq] at hs
    have hi : w1.idleThreads.length =
        (if (!w.pool.notFull) = true then w.idleThreads.length
         else if ({ w.pool with
            m_taskQueue := w.pool.m_taskQueue ++ [sp]
            m_taskQueueSize := w.pool.m_taskQueueSize + 1 } : ThreadPool).wantsWorker = true
          then w.idleThreads.length + 1 else w.idleThreads.length) ∧
        w1.busyThreads = w.busyThreads := by
      subst hs
      unfold ThreadPool.submitTask
      by_cases hf : w.pool.notFull = true
      · simp only [hf, Bool.not_true, Bool.false_eq_true, if_false]
        split <;> simp [submitSpawn, Thread.init, Thread.start]
      · simp [hf]
    subst hs
    simp only [WorkerInv]
    rw [submit_frame, hi.1, hi.2]
    by_cases hf : w.pool.notFull = true
    · simp only [hf, Bool.not_true, Bool.false_eq_true, if_false]
      split
      · rename_i hw
        simp only [ThreadPool.wantsWorker, Bool.and_eq_true, decide_eq_true_eq] at hw
        refine ⟨?_, ?_, ?_⟩ <;> simp only <;> push_cast <;> omega
      · exact ⟨h1, h2, h3⟩
    · simp only [hf, Bool.not_false, if_true]
      exact ⟨h1, h2, h3⟩
  | destructor =>
    simp only [step, Option.some.injEq] at hs
    subst hs
    exact ⟨h1, h2, h3⟩
  | take j =>
    simp only [step, threadFuncTake] at hs
    split at hs
    · rename_i threadId task rest hj hq
      simp only [Option.some.injEq] at hs
      subst hs
      have hl := length_eraseIdx_of_lookup _ _ _ hj
      simp only [WorkerInv]
      rw [hl]
      refine ⟨h1, ?_, ?_⟩
      · omega
      · simp only [List.length_append, List.length_singleton]
        push_cast
        omega
    · simp at hs
  | run j =>
    simp only [step, threadFuncRun] at hs
    split at hs
    · rename_i threadId task hj
      simp only [Option.some.injEq] at hs
      subst hs
      have hl := length_eraseIdx_of_lookup _ _ _ hj
      simp only [WorkerInv]
      rw [hl]
      refine ⟨h1, ?_, ?_⟩
      · simp only [List.length_append, List.length_singleton]
        push_cast
        omega
      · omega
    · simp at hs
  | retire j =>
    simp only [step, threadFuncRetire] at hs
    split at hs
    · rename_i threadId hj
      split at hs
      · simp only [Option.some.injEq] at hs
        subst hs
        have hl := length_eraseIdx_of_lookup _ _ _ hj
        simp only [WorkerInv]
        rw [hl]
        refine ⟨?_, ?_, ?_⟩ <;> omega
      · simp at hs
    · simp at hs
  | exit j =>
    simp only [step, threadFuncExit] at hs
    split at hs
    · rename_i threadId hj
      split at hs
      · simp only [Option.some.injEq] at hs
        subst hs
        have hl := length_eraseIdx_of_lookup _ _ _ hj
        simp only [WorkerInv]
        rw [hl]
        refine ⟨h1, ?_, h3⟩
        omega
      · simp at hs
    · simp at hs

/-- The keys after `emplace` are the old keys and possibly the new one. -/
theorem mem_registryIds_emplace (k id : Int) (th : Thread) (m : List (Int × Thread))
    (h : k ∈ registryIds (emplace id th m)) : k ∈ registryIds m ∨ k = id := by
  unfold emplace at h
  split at h
  · exact Or.inl h
  · simp only [registryIds, List.map_append, List.map_cons, List.map_nil, List.mem_append,
      List.mem_singleton] at h
    exact h

/-- The keys after `erase` are among the old keys. -/
theorem mem_registryIds_erase (k id : Int) (m : List (Int × Thread))
    (h : k ∈ registryIds (erase id m)) : k ∈ registryIds m := by
  simp only [registryIds, erase, List.mem_map, List.mem_filter] at h ⊢
  obtain ⟨e, ⟨he, -⟩, hk⟩ := h
  exact ⟨e, he, hk⟩

/-- The creation loop of `start` registers only ids it has just generated. -/
theorem IdsBelow_startCreate {Ty : Type} [CppTypes Ty] (k : Nat) (w : World Ty)
    (h : IdsBelow w) : IdsBelow (startCreate k w) := by
  induction k generalizing w with
  | zero => simpa [startCreate] using h
  | succ k ih =>
    simp only [startCreate]
    apply ih
    intro x hx
    simp only [Thread.init] at hx ⊢
    rcases mem_registryIds_emplace _ _ _ _ hx with hx | hx
    · have := h x hx
      omega
    · omega

/-- Every step keeps the registry ids below the id counter. -/
theorem IdsBelow_step {Ty : Type} [CppTypes Ty] (op : Op) (w w1 : World Ty)
    (hinv : IdsBelow w) (hs : step op w = some w1) : IdsBelow w1 := by
  cases op with
  | setMode mode =>
    simp only [step, Option.some.injEq] at hs
    subst hs
    simp only [IdsBelow, ThreadPool.setMode]
    split <;> exact hinv
  | setThreadSizeMaxThreshHold t =>
    simp only [step, Option.some.injEq] at hs
    subst hs
    simp only [IdsBelow, ThreadPool.setThreadSizeMaxThreshHold]
    split
    · exact hinv
    · split <;> exact hinv
  | setTaskQueMaskThreshHold t =>
    simp only [step, Option.some.injEq] at hs
    subst hs
    simp only [IdsBelow, ThreadPool.setTaskQueMaskThreshHold]
    split <;> exact hinv
  | start n =>
    simp only [step, ThreadPool.start, startRegister] at hs
    obtain ⟨f1, -, -, -, f5⟩ := startLaunch_frame _ _ _ _ hs
    have hc := IdsBelow_startCreate n.toNat
      { w with pool := { w.pool with
          m_isPoolRunning := true
          m_initThreadSize := n
          m_curThreadSize := n } } hinv
    intro k hk
    rw [f1] at hk
    rw [f5]
    exact hc k hk
  | submitTask sp =>
    simp only [step, Option.some.injEq] at hs
    subst hs
    intro k hk
    rw [submit_frame] at hk
    rw [submit_generateId]
    by_cases hf : w.pool.notFull = true
    · simp only [hf, Bool.not_true, Bool.false_eq_true, if_false] at hk ⊢
      split at hk
      · rename_i hw
        simp only [hw, if_true]
        simp only at hk
        rcases mem_registryIds_emplace _ _ _ _ hk with hk | hk
        · have := hinv k hk
          omega
        · omega
      · rename_i hw
        simp only [hw, if_false]
        exact hinv k hk
    · simp only [hf, Bool.not_false, if_true] at hk ⊢
      exact hinv k hk
  | destructor =>
    simp only [step, Option.some.injEq] at hs
    subst hs
    exact hinv
  | take j =>
    simp only [step, threadFuncTake] at hs
    split at hs
    · simp only [Option.some.injEq] at hs
      subst hs
      exact hinv
    · simp at hs
  | run j =>
    simp only [step, threadFuncRun] at hs
    split at hs
    · simp only [Option.some.injEq] at hs
      subst hs
      exact hinv
    · simp at hs
  | retire j =>
    simp only [step, threadFuncRetire] at hs
    split at hs
    · split at hs
      · simp only [Option.some.injEq] at hs
        subst hs
        intro k hk
        exact hinv k (mem_registryIds_erase _ _ _ hk)
      · simp at hs
    · simp at hs
  | exit j =>
    simp only [step, threadFuncExit] at hs
    split at hs
    · split at hs
      · simp only [Option.some.injEq] at hs
        subst hs
        intro k hk
        exact hinv k (mem_registryIds_erase _ _ _ hk)
      · simp at hs
    · simp at hs

/-- In a reachable state the next id is not yet in the registry. -/
theorem IdsBelow_of_Reachable {Ty : Type} [CppTypes Ty] (w : World Ty) (hw : Reachable w) :
    IdsBelow w := by
  obtain ⟨g, heap, ops, h⟩ := hw
  have h0 : IdsBelow (World.init g heap) := by
    intro k hk
    simp [World.init, ThreadPool.init, registryIds] at hk
  exact runWith_preserves _ IdsBelow (fun op w w1 _ hi hs => IdsBelow_step op w w1 hi hs)
    ops _ _ h0 h

/-- Every step other than `start` keeps a running fixed-mode pool at `n` threads. -/
theorem FixedInv_step {Ty : Type} [CppTypes Ty] (n : Int) (op : Op) (w w1 : World Ty)
    (hok : okNoStart op w = true) (hinv : FixedInv n w) (hs : step op w = some w1) :
    FixedInv n w1 := by
  cases op with
  | setMode mode =>
    simp only [step, Option.some.injEq] at hs
    subst hs
    simp only [FixedInv, ThreadPool.setMode, ThreadPool.checkRunningState]
    split
    · exact hinv
    · rename_i hr
      intro hr1
      exact absurd hr1 hr
  | setThreadSizeMaxThreshHold t =>
    simp only [step, Option.some.injEq] at hs
    subst hs
    simp only [FixedInv, ThreadPool.setThreadSizeMaxThreshHold, ThreadPool.checkRunningState]
    split
    · exact hinv
    · rename_i hr
      split
      · intro hr1
        exact absurd hr1 hr
      · exact hinv
  | setTaskQueMaskThreshHold t =>
    simp only [step, Option.some.injEq] at hs
    subst hs
    simp only [FixedInv, ThreadPool.setTaskQueMaskThreshHold, ThreadPool.checkRunningState]
    split
    · exact hinv
    · rename_i hr
      intro hr1
      exact absurd hr1 hr
  | start n =>
    simp [okNoStart] at hok
  | submitTask sp =>
    simp only [step, Option.some.injEq] at hs
    subst hs
    simp only [FixedInv]
    rw [submit_frame]
    by_cases hf : w.pool.notFull = true
    · simp only [hf, Bool.not_true, Bool.false_eq_true, if_false]
      split
      · rename_i hw
        simp only [ThreadPool.wantsWorker, Bool.and_eq_true, decide_eq_true_eq] at hw
        intro hr
        have := (hinv hr).1
        rw [this] at hw
        exact absurd hw.1.1 (by decide)
      · exact hinv
    · simp only [hf, Bool.not_false, if_true]
      exact hinv
  | destructor =>
    simp only [step, Option.some.injEq] at hs
    subst hs
    intro hr
    simp [ThreadPool.destructor] at hr
  | take j =>
    simp only [step, threadFuncTake] at hs
    split at hs
    · simp only [Option.some.injEq] at hs
      subst hs
      exact hinv
    · simp at hs
  | run j =>
    simp only [step, threadFuncRun] at hs
    split at hs
    · simp only [Option.some.injEq] at hs
      subst hs
      exact hinv
    · simp at hs
  | retire j =>
    simp only [step, threadFuncRetire] at hs
    split at hs
    · split at hs
      · rename_i hc
        obtain ⟨-, hr, hm, -⟩ := hc
        have := (hinv hr).1
        rw [this] at hm
        exact absurd hm (by decide)
      · simp at hs
    · simp at hs
  | exit j =>
    simp only [step, threadFuncExit] at hs
    split at hs
    · split at hs
      · simp only [Option.some.injEq] at hs
        subst hs
        exact hinv
      · simp at hs
    · simp at hs

/-- From a state with the bookkeeping of `GrowthInv s`, a run of submissions and
task pick-ups that brings the number of submissions to three ends with three
workers. -/
theorem growth_run {Ty : Type} [CppTypes Ty] (ops : List Op) :
    ∀ (s : Nat) (w w3 : World Ty), GrowthInv s w → s + countSubmits ops = 3 →
      runWith okSubmitTake ops w = some w3 → w3.pool.m_curThreadSize = 3 := by
  induction ops with
  | nil =>
    intro s w w3 hinv hc hrun
    simp only [runWith, Option.some.injEq] at hrun
    subst hrun
    simp only [countSubmits] at hc
    obtain ⟨-, -, -, -, -, h6⟩ := hinv
    rw [h6]
    simp [show ¬ s < 3 by omega]
  | cons op ops ih =>
    intro s w w3 hinv hc hrun
    obtain ⟨h1, h2, h3, h4, h5, h6⟩ := hinv
    simp only [runWith] at hrun
    split at hrun
    · rename_i hok
      cases hs : step op w with
      | none => simp [hs] at hrun
      | some w1 =>
        simp only [hs] at hrun
        cases op with
        | submitTask sp =>
          simp only [countSubmits] at hc
          simp only [step, Option.some.injEq] at hs
          subst hs
          refine ih (s + 1) _ w3 ?_ (by omega) hrun
          have hf : w.pool.notFull = true := by
            simp only [ThreadPool.notFull, decide_eq_true_eq, h3, toSizeT]
            omega
          simp only [GrowthInv]
          rw [submit_frame]
          simp only [hf, Bool.not_true, Bool.false_eq_true, if_false]
          split
          · rename_i hw
            simp only [ThreadPool.wantsWorker, Bool.and_eq_true, decide_eq_true_eq] at hw
            simp only [List.length_append, List.length_singleton]
            split at h6 <;> refine ⟨h1, h2, h3, by omega, by push_cast; omega, ?_⟩ <;>
              split <;> omega
          · rename_i hw
            simp only [ThreadPool.wantsWorker, Bool.and_eq_true, decide_eq_true_eq, not_and,
              h1, true_and, forall_const] at hw
            simp only [List.length_append, List.length_singleton]
            split at h6 <;> refine ⟨h1, h2, h3, by omega, by push_cast; omega, ?_⟩ <;>
              split <;> omega
        | take j =>
          simp only [countSubmits] at hc
          simp only [step, threadFuncTake] at hs
          split at hs
          · rename_i threadId task rest hj hq
            simp only [Option.some.injEq] at hs
            subst hs
            refine ih s _ w3 ?_ hc hrun
            rw [hq] at h4
            simp only [List.length_cons] at h4
            exact ⟨h1, h2, h3, by simp only; omega, by simp only; omega, h6⟩
          · simp at hs
        | setMode m => simp [okSubmitTake] at hok
        | setThreadSizeMaxThreshHold t => simp [okSubmitTake] at hok
        | setTaskQueMaskThreshHold t => simp [okSubmitTake] at hok
        | start n => simp [okSubmitTake] at hok
        | destructor => simp [okSubmitTake] at hok
        | run j => simp [okSubmitTake] at hok
        | retire j => simp [okSubmitTake] at hok
        | exit j => simp [okSubmitTake] at hok
    · simp at hrun

/-- The state after `setMode(MODE_CACHED); start(2)` on a fresh pool. -/
theorem growth_after_start {Ty : Type} [CppTypes Ty] (heap : Heap Ty) (w0 : World Ty)
    (h0 : runOps [Op.setMode PoolMode.MODE_CACHED, Op.start 2] (World.init 0 heap) = some w0) :
    GrowthInv 0 w0 := by
  simp only [runOps, runWith, step, if_true] at h0
  split at h0
  · simp at h0
  · rename_i w1 hs
    simp only [Option.some.injEq] at h0
    subst h0
    obtain ⟨f1, -⟩ := start_frame _ _ _ hs
    simp only [GrowthInv]
    rw [f1]
    simp [ThreadPool.setMode, ThreadPool.checkRunningState, World.init, ThreadPool.init,
      THREAD_MAX_THRESHHOLD, TASK_MAX_THRESHHOLD]

/-- The creation loop of `start` adds only keys from the id counter upwards. -/
theorem keys_startCreate {Ty : Type} [CppTypes Ty] (k : Nat) (w : World Ty) (x : Int)
    (hx : x ∈ registryIds (startCreate k w).pool.m_threads) :
    x ∈ registryIds w.pool.m_threads ∨ w.s_generateId ≤ x := by
  induction k generalizing w with
  | zero => exact Or.inl (by simpa [startCreate] using hx)
  | succ k ih =>
    simp only [startCreate] at hx
    rcases ih _ hx with h | h
    · simp only [Thread.init] at h
      rcases mem_registryIds_emplace _ _ _ _ h with h | h
      · exact Or.inl h
      · exact Or.inr (by omega)
    · simp only [Thread.init] at h
      exact Or.inr (by omega)

/-- Whenever the id counter is positive, `start(n)` with `n ≥ 1` on a fresh pool
looks up the absent key 0. -/
theorem start_undefined_of_pos {Ty : Type} [CppTypes Ty] (g n : Int) (heap : Heap Ty)
    (hg : 0 < g) (hn : 1 ≤ n) : ThreadPool.start n (World.init g heap) = none := by
  obtain ⟨k, hk⟩ : ∃ k, n.toNat = k + 1 := ⟨n.toNat - 1, by omega⟩
  simp only [ThreadPool.start, startRegister, hk, startLaunch]
  split
  · rfl
  · rename_i th hth
    exfalso
    have hnone : List.lookup (0 : Int) (startCreate (k + 1)
        { World.init g heap with pool := { (World.init g heap).pool with
            m_isPoolRunning := true
            m_initThreadSize := n
            m_curThreadSize := n } }).pool.m_threads = none := by
      rw [List.lookup_eq_none_iff]
      intro p hp
      simp only [bne_iff_ne, ne_eq]
      intro h0
      have hmem : (0 : Int) ∈ registryIds (startCreate (k + 1)
        { World.init g heap with pool := { (World.init g heap).pool with
            m_isPoolRunning := true
            m_initThreadSize := n
            m_curThreadSize := n } }).pool.m_threads := by
        simp only [registryIds, List.mem_map]
        exact ⟨p, hp, h0.symm⟩
      rcases keys_startCreate _ _ _ hmem with h | h
      · simp [World.init, ThreadPool.init, registryIds] at h
      · simp only [World.init] at h
        omega
    rw [hnone] at hth
    simp at hth

/-! ### `start` statement by statement -/

/-- A property kept by every permitted fine-grained step holds after every permitted
fine-grained run. -/
theorem runFine_preserves {Ty : Type} [CppTypes Ty] (ok : FineOp → FineWorld Ty → Bool)
    (P : FineWorld Ty → Prop)
    (hstep : ∀ fop s s1, ok fop s = true → P s → fineStep fop s = some s1 → P s1) :
    ∀ (fops : List FineOp) (s s2 : FineWorld Ty), P s → runFine ok fops s = some s2 → P s2 := by
  intro fops
  induction fops with
  | nil =>
    intro s s2 hP hrun
    simp only [runFine, Option.some.injEq] at hrun
    subst hrun
    exact hP
  | cons fop fops ih =>
    intro s s2 hP hrun
    simp only [runFine] at hrun
    split at hrun
    · rename_i hok
      cases hs : fineStep fop s with
      | none => simp [hs] at hrun
      | some s1 =>
        simp only [hs] at hrun
        exact ih s1 s2 (hstep fop s s1 hok hP hs) hrun
    · simp at hrun

/-- A fine-grained step made of an operation of `Op` is that operation, which is not
the one-step `start`, applied to the world. -/
theorem fineStep_atomic {Ty : Type} [CppTypes Ty] (op : Op) (s s1 : FineWorld Ty)
    (h : fineStep (FineOp.atomic op) s = some s1) :
    (∀ n, op ≠ Op.start n) ∧
      ∃ w1, step op s.world = some w1 ∧ s1 = { s with world := w1 } := by
  cases op
  case start n => simp [fineStep] at h
  all_goals
    simp only [fineStep, Option.map_eq_some'] at h
    obtain ⟨w1, hw, hs⟩ := h
    exact ⟨fun n hn => (by cases hn), w1, hw, hs.symm⟩

/-- With no queued task and no thread executing one, and with no idle thread or
`m_curThreadSize ≤ m_initThreadSize`, the only worker step that can occur is
the exit of an idle thread, which leaves the counters alone. -/
theorem worker_step_quiet {Ty : Type} [CppTypes Ty] (op : Op) (w w1 : World Ty)
    (hop : isWorkerStep op = true) (hq : Quiet w)
    (hr : w.idleThreads.length = 0 ∨ w.pool.m_curThreadSize ≤ w.pool.m_initThreadSize)
    (hs : step op w = some w1) :
    w1.pool = { w.pool with m_threads := w1.pool.m_threads } ∧
      w1.busyThreads = w.busyThreads ∧
      w1.idleThreads.length ≤ w.idleThreads.length := by
  obtain ⟨hb, hqu⟩ := hq
  cases op with
  | take j =>
    simp only [step, threadFuncTake] at hs
    split at hs
    · rename_i threadId task rest hj hq2
      rw [hqu] at hq2
      simp at hq2
    · simp at hs
  | run j =>
    simp only [step, threadFuncRun, hb] at hs
    simp at hs
  | retire j =>
    simp only [step, threadFuncRetire] at hs
    split at hs
    · rename_i threadId hj
      split at hs
      · rename_i hc
        obtain ⟨hl, -⟩ := List.getElem?_eq_some.1 hj
        omega
      · simp at hs
    · simp at hs
  | exit j =>
    simp only [step, threadFuncExit] at hs
    split at hs
    · split at hs
      · simp only [Option.some.injEq] at hs
        subst hs
        refine ⟨rfl, rfl, ?_⟩
        simp only [List.length_eraseIdx]
        split <;> omega
      · simp at hs
    · simp at hs
  | setMode m => simp [isWorkerStep] at hop
  | setThreadSizeMaxThreshHold t => simp [isWorkerStep] at hop
  | setTaskQueMaskThreshHold t => simp [isWorkerStep] at hop
  | start n => simp [isWorkerStep] at hop
  | submitTask sp => simp [isWorkerStep] at hop
  | destructor => simp [isWorkerStep] at hop

/-- Worker steps are not restricted by `okWorkers`. -/
theorem okWorkers_of_isWorkerStep {Ty : Type} [CppTypes Ty] (op : Op) (w : World Ty)
    (hop : isWorkerStep op = true) : okWorkers op w = true := by
  cases op <;> simp [isWorkerStep] at hop <;> rfl

/-- Every fine-grained step that respects `okFine` keeps the worker counters
consistent, at every position of a call of `start`. -/
theorem FineInv_step {Ty : Type} [CppTypes Ty] (fop : FineOp) (s s1 : FineWorld Ty)
    (hok : okFine fop s = true) (hinv : FineInv s) (hs : fineStep fop s = some s1) :
    FineInv s1 := by
  cases fop with
  | atomic op =>
    obtain ⟨hns, w1, hw, rfl⟩ := fineStep_atomic op s s1 hs
    simp only [okFine, Bool.or_eq_true, Bool.and_eq_true, Option.isNone_iff_eq_none] at hok
    cases hpc : s.startPc with
    | none =>
      simp only [FineInv, hpc] at hinv ⊢
      have hokw : okWorkers op s.world = true := by
        rcases hok with hok | hok
        · exact okWorkers_of_isWorkerStep op s.world hok
        · exact hok.2
      exact WorkerInv_step op s.world w1 hokw hinv hw
    | some pc =>
      have hop : isWorkerStep op = true := by
        rcases hok with hok | hok
        · exact hok
        · rw [hpc] at hok
          exact absurd hok.1 (by simp)
      cases pc with
      | assignInit n =>
        simp only [FineInv, hpc] at hinv ⊢
        obtain ⟨hq, h1, h2, h3, h4, h5⟩ := hinv
        obtain ⟨f1, f2, f3⟩ := worker_step_quiet op s.world w1 hop hq (Or.inl h5) hw
        refine ⟨⟨by rw [f2]; exact hq.1, by rw [f1]; exact hq.2⟩, h1, ?_, ?_, ?_, ?_⟩
        · rw [f1]; exact h2
        · rw [f1]; exact h3
        · rw [f1]; exact h4
        · omega
      | assignCur n =>
        simp only [FineInv, hpc] at hinv ⊢
        obtain ⟨hq, h1, h2, h3, h4, h5, h6⟩ := hinv
        obtain ⟨f1, f2, f3⟩ := worker_step_quiet op s.world w1 hop hq (Or.inl h5) hw
        refine ⟨⟨by rw [f2]; exact hq.1, by rw [f1]; exact hq.2⟩, h1, ?_, ?_, ?_, ?_, ?_⟩
        · rw [f1]; exact h2
        · rw [f1]; exact h3
        · rw [f1]; exact h4
        · omega
        · rw [f1]; exact h6
      | create i =>
        simp only [FineInv, hpc] at hinv ⊢
        obtain ⟨hq, h1, h2, h3, h4, h5⟩ := hinv
        obtain ⟨f1, f2, f3⟩ := worker_step_quiet op s.world w1 hop hq (Or.inl h5) hw
        refine ⟨⟨by rw [f2]; exact hq.1, by rw [f1]; exact hq.2⟩, ?_, ?_, ?_, ?_, ?_⟩
        · rw [f1]; exact h1
        · rw [f1]; exact h2
        · rw [f1]; exact h3
        · rw [f1]; exact h4
        · omega
      | launch i =>
        simp only [FineInv, hpc] at hinv ⊢
        obtain ⟨hq, h1, h2, h3, h4, h5, h6⟩ := hinv
        obtain ⟨f1, f2, f3⟩ := worker_step_quiet op s.world w1 hop hq
          (Or.inr (by omega)) hw
        refine ⟨⟨by rw [f2]; exact hq.1, by rw [f1]; exact hq.2⟩, ?_, ?_, h3, ?_, ?_, ?_⟩
        · rw [f1]; exact h1
        · rw [f1]; exact h2
        · rw [f1]; exact h4
        · rw [f1]; exact h5
        · omega
      | count i =>
        simp only [FineInv, hpc] at hinv ⊢
        obtain ⟨hq, h1, h2, h3, h4, h5, h6⟩ := hinv
        obtain ⟨f1, f2, f3⟩ := worker_step_quiet op s.world w1 hop hq
          (Or.inr (by omega)) hw
        refine ⟨⟨by rw [f2]; exact hq.1, by rw [f1]; exact hq.2⟩, ?_, ?_, h3, ?_, ?_, ?_⟩
        · rw [f1]; exact h1
        · rw [f1]; exact h2
        · rw [f1]; exact h4
        · rw [f1]; exact h5
        · omega
  | startCall n =>
    simp only [okFine, Bool.and_eq_true, decide_eq_true_eq, List.isEmpty_iff,
      Option.isNone_iff_eq_none] at hok
    obtain ⟨⟨⟨⟨⟨g0, g1⟩, g2⟩, g3⟩, g4⟩, g5⟩ := hok
    simp only [fineStep, g0, Option.some.injEq] at hs
    subst hs
    simp only [FineInv, g0] at hinv ⊢
    obtain ⟨i1, i2, i3⟩ := hinv
    rw [g1] at i3
    simp only [List.length_nil] at i3
    refine ⟨⟨g1, g2⟩, g4, g5, g3, ?_, ?_⟩
    · omega
    · omega
  | startAdvance =>
    simp only [fineStep, startAdvance] at hs
    cases hpc : s.startPc with
    | none => simp [hpc] at hs
    | some pc =>
      cases pc with
      | assignInit n =>
        simp only [hpc, Option.some.injEq] at hs
        subst hs
        simp only [FineInv, hpc] at hinv ⊢
        obtain ⟨hq, h1, h2, h3, h4, h5⟩ := hinv
        refine ⟨hq, h1, h2, h3, h4, h5, ?_⟩
        trivial
      | assignCur n =>
        simp only [hpc, Option.some.injEq] at hs
        subst hs
        simp only [FineInv, hpc] at hinv ⊢
        obtain ⟨hq, h1, h2, h3, h4, h5, h6⟩ := hinv
        exact ⟨hq, h2, h1, h6.symm, h3, h5⟩
      | create i =>
        simp only [hpc] at hs
        simp only [FineInv, hpc] at hinv
        obtain ⟨hq, h1, h2, h3, h4, h5⟩ := hinv
        split at hs
        · simp only [Option.some.injEq] at hs
          subst hs
          obtain ⟨c1, c2, c3, -, -⟩ := startCreate_frame 1 s.world
          simp only [FineInv, Quiet]
          rw [c1, c2, c3]
          exact ⟨hq, h1, h2, h3, h4, h5⟩
        · simp only [Option.some.injEq] at hs
          subst hs
          simp only [FineInv]
          refine ⟨hq, h1, h3, le_refl 0, ?_, h4, ?_⟩ <;> omega
      | launch i =>
        simp only [hpc] at hs
        simp only [FineInv, hpc] at hinv
        obtain ⟨hq, h1, h2, h3, h4, h5, h6⟩ := hinv
        split at hs
        · rename_i hlt
          split at hs
          · simp at hs
          · simp only [Option.some.injEq] at hs
            subst hs
            simp only [FineInv, Quiet, Thread.start, List.length_append, List.length_singleton]
            refine ⟨hq, h1, h2, h3, hlt, h5, ?_⟩
            push_cast
            omega
        · simp only [Option.some.injEq] at hs
          subst hs
          simp only [FineInv, WorkerInv]
          rw [hq.1]
          simp only [List.length_nil]
          refine ⟨h1, ?_, ?_⟩ <;> push_cast <;> omega
      | count i =>
        simp only [hpc, Option.some.injEq] at hs
        subst hs
        simp only [FineInv, hpc] at hinv ⊢
        obtain ⟨hq, h1, h2, h3, h4, h5, h6⟩ := hinv
        refine ⟨hq, h1, h2, ?_, ?_, ?_, h6⟩ <;> omega

/-- The bounds on the worker counters that `FineInv` gives at every position. -/
theorem FineInv_bounds {Ty : Type} [CppTypes Ty] (s : FineWorld Ty) (h : FineInv s) :
    0 ≤ s.world.pool.m_idleThreadSize ∧
      s.world.pool.m_idleThreadSize ≤ s.world.pool.m_curThreadSize ∧
      s.world.pool.m_curThreadSize ≤ s.world.pool.m_threadSizeMaxThreshHold := by
  cases hpc : s.startPc with
  | none =>
    simp only [FineInv, hpc, WorkerInv] at h
    obtain ⟨h1, h2, h3⟩ := h
    refine ⟨?_, ?_, h1⟩ <;> omega
  | some pc =>
    cases pc <;> simp only [FineInv, hpc] at h <;> omega

/-- Running two sequences of fine-grained steps one after the other. -/
theorem runFine_append {Ty : Type} [CppTypes Ty] (ok : FineOp → FineWorld Ty → Bool)
    (a b : List FineOp) (s : FineWorld Ty) :
    runFine ok (a ++ b) s = (runFine ok a s).bind (runFine ok b) := by
  induction a generalizing s with
  | nil => simp [runFine]
  | cons fop a ih =>
    simp only [List.cons_append, runFine]
    split
    · cases hs : fineStep fop s with
      | none => simp
      | some s1 => simp [ih]
    · simp

/-- The first loop of `start`, statement by statement with nothing in between, is
`startCreate`. -/
theorem advance_create {Ty : Type} [CppTypes Ty] (k : Nat) :
    ∀ (i : Int) (w : World Ty),
      (k = 0 ∨ i + (k : Int) ≤ w.pool.m_initThreadSize) →
      runFineOps (List.replicate k FineOp.startAdvance)
          { world := w, startPc := some (StartPc.create i) } =
        some { world := startCreate k w, startPc := some (StartPc.create (i + k)) } := by
  induction k with
  | zero =>
    intro i w _
    simp [runFineOps, runFine, startCreate]
  | succ k ih =>
    intro i w hk
    have hlt : i < w.pool.m_initThreadSize := by
      rcases hk with hk | hk
      · omega
      · push_cast at hk
        omega
    obtain ⟨c1, -, -, -, -⟩ := startCreate_frame 1 w
    have hinit : (startCreate 1 w).pool.m_initThreadSize = w.pool.m_initThreadSize := by
      rw [c1]
    have hnext := ih (i + 1) (startCreate 1 w) (Or.inr (by
      rw [hinit]
      rcases hk with hk | hk
      · omega
      · push_cast at hk
        omega))
    simp only [runFineOps] at hnext ⊢
    simp only [List.replicate_succ, runFine, fineStep, startAdvance, hlt, if_true]
    rw [hnext]
    have hc : startCreate k (startCreate 1 w) = startCreate (k + 1) w := by
      simp [startCreate]
    rw [hc]
    push_cast
    rw [add_assoc, add_comm 1 (k : Int)]

/-- The second loop of `start`, statement by statement with nothing in between, is
`startLaunch`. -/
theorem advance_launch {Ty : Type} [CppTypes Ty] (k : Nat) :
    ∀ (i : Int) (w : World Ty),
      w.pool.m_initThreadSize ≤ i + (k : Int) →
      (k = 0 ∨ i + (k : Int) ≤ w.pool.m_initThreadSize) →
      runFineOps (List.replicate (2 * k + 1) FineOp.startAdvance)
          { world := w, startPc := some (StartPc.launch i) } =
        (startLaunch i k w).map (fun w1 => { world := w1, startPc := none }) := by
  induction k with
  | zero =>
    intro i w h1 _
    have hge : ¬ i < w.pool.m_initThreadSize := by
      push_cast at h1
      omega
    simp [runFineOps, runFine, fineStep, startAdvance, hge, startLaunch]
  | succ k ih =>
    intro i w h1 hk
    have hlt : i < w.pool.m_initThreadSize := by
      rcases hk with hk | hk
      · omega
      · push_cast at hk
        omega
    have hrep : List.replicate (2 * (k + 1) + 1) FineOp.startAdvance =
        FineOp.startAdvance :: FineOp.startAdvance ::
          List.replicate (2 * k + 1) FineOp.startAdvance := by
      rw [show 2 * (k + 1) + 1 = (2 * k + 1) + 1 + 1 by omega]
      simp [List.replicate_succ]
    rw [hrep]
    simp only [runFineOps, runFine, fineStep, startAdvance, hlt, if_true, startLaunch]
    cases hl : List.lookup i w.pool.m_threads with
    | none => simp
    | some th =>
      simp only [Option.map_some']
      have hnext := ih (i + 1)
        { th.start w with pool := { (th.start w).pool with
            m_idleThreadSize := (th.start w).pool.m_idleThreadSize + 1 } }
        (by
          simp only [Thread.start]
          push_cast at h1
          omega)
        (Or.inr (by
          simp only [Thread.start]
          rcases hk with hk | hk
          · omega
          · push_cast at hk
            omega))
      simp only [runFineOps] at hnext
      exact hnext

/-- An unrestricted fine-grained run, one step at a time. -/
theorem runFineOps_cons {Ty : Type} [CppTypes Ty] (fop : FineOp) (fops : List FineOp)
    (s : FineWorld Ty) :
    runFineOps (fop :: fops) s = (fineStep fop s).bind (runFineOps fops) := by
  simp only [runFineOps, runFine, if_true]
  cases fineStep fop s <;> rfl

/-- A call of `start` during which no other thread takes a step, executed statement
by statement, is the one-step `ThreadPool.start`. -/
theorem start_fine_matches {Ty : Type} [CppTypes Ty] (n : Int) (w : World Ty) :
    runFineOps (FineOp.startCall n :: List.replicate (3 * n.toNat + 4) FineOp.startAdvance)
        { world := w, startPc := none } =
      (ThreadPool.start n w).map (fun w1 => { world := w1, startPc := none }) := by
  have hrep : List.replicate (3 * n.toNat + 4) FineOp.startAdvance =
      FineOp.startAdvance :: FineOp.startAdvance ::
        (List.replicate n.toNat FineOp.startAdvance ++
          (FineOp.startAdvance :: List.replicate (2 * n.toNat + 1) FineOp.startAdvance)) := by
    rw [show 3 * n.toNat + 4 = (n.toNat + (2 * n.toNat + 1 + 1)) + 1 + 1 by omega]
    simp [List.replicate_succ, List.replicate_add]
  obtain ⟨w0, hw0⟩ : ∃ w0 : World Ty, w0 = { w with pool := { w.pool with
        m_isPoolRunning := true
        m_initThreadSize := n
        m_curThreadSize := n } } := ⟨_, rfl⟩
  have hinit0 : w0.pool.m_initThreadSize = n := by rw [hw0]
  have e1 : fineStep (FineOp.startCall n) { world := w, startPc := none } =
      some { world := { w with pool := { w.pool with m_isPoolRunning := true } },
             startPc := some (StartPc.assignInit n) } := rfl
  have e2 : fineStep FineOp.startAdvance
      { world := { w with pool := { w.pool with m_isPoolRunning := true } },
        startPc := some (StartPc.assignInit n) } =
      some { world := { w with pool := { w.pool with
               m_isPoolRunning := true
               m_initThreadSize := n } },
             startPc := some (StartPc.assignCur n) } := rfl
  have e3 : fineStep FineOp.startAdvance
      { world := { w with pool := { w.pool with
               m_isPoolRunning := true
               m_initThreadSize := n } },
        startPc := some (StartPc.assignCur n) } =
      some { world := w0, startPc := some (StartPc.create 0) } := by
    rw [hw0]
    rfl
  have hA := advance_create n.toNat 0 w0 (by rw [hinit0]; omega)
  obtain ⟨c1, -, -, -, -⟩ := startCreate_frame n.toNat w0
  have hinit : (startCreate n.toNat w0).pool.m_initThreadSize = n := by
    rw [c1]
    exact hinit0
  have e4 : fineStep FineOp.startAdvance
      { world := startCreate n.toNat w0, startPc := some (StartPc.create (0 + n.toNat)) } =
      some { world := startCreate n.toNat w0, startPc := some (StartPc.launch 0) } := by
    have hge : ¬ ((0 : Int) + (n.toNat : Int) < (startCreate n.toNat w0).pool.m_initThreadSize) := by
      rw [hinit]
      omega
    simp only [fineStep, startAdvance, hge, if_false]
  have hB := advance_launch n.toNat 0 (startCreate n.toNat w0)
    (by rw [hinit]; omega) (by rw [hinit]; omega)
  rw [hrep, runFineOps_cons, e1, Option.some_bind, runFineOps_cons, e2, Option.some_bind,
    runFineOps_cons, e3, Option.some_bind]
  have happ := runFine_append (fun _ _ => true) (List.replicate n.toNat FineOp.startAdvance)
    (FineOp.startAdvance :: List.replicate (2 * n.toNat + 1) FineOp.startAdvance)
    ({ world := w0, startPc := some (StartPc.create 0) } : FineWorld Ty)
  simp only [runFineOps] at hA hB ⊢
  rw [happ, hA, Option.some_bind]
  have hc := runFineOps_cons FineOp.startAdvance
    (List.replicate (2 * n.toNat + 1) FineOp.startAdvance)
    ({ world := startCreate n.toNat w0, startPc := some (StartPc.create (0 + n.toNat)) } :
      FineWorld Ty)
  simp only [runFineOps] at hc
  rw [hc, e4, Option.some_bind, hB, hw0]
  rfl

/-- A run through the pool: one worker, the task at address 0 is submitted, taken
and executed; `get` on the returned handle (address 0) then delivers `10`. -/
theorem round_trip_through_pool :
    ∃ (w : World BasicTy) (a : Any BasicTy) (h : Heap BasicTy),
      runOps [Op.start 1, Op.submitTask 0, Op.take 0, Op.run 0] (World.init 0 threeTasks)
        = some w ∧
      handleValid w 0 = some true ∧
      w.heap.get 0 = some (a, h) ∧
      (a.cast_ BasicTy.uLong).1 = Except.ok (10 : Nat) :=
  ⟨_, _, _, rfl, rfl, rfl, rfl⟩

/-! ## The result channel -/

/-- C1 (result round trip). A task whose `run()` returns the value `v` of type `U`
is bound to a valid handle with a fresh semaphore. Then `Task::exec` followed
by `Result::get` on that handle returns a container from which `cast_<U>`
yields `v`; afterwards the semaphore of the handle is back at 0 permits, the
handle holds no value any more, and a further `get` finds no permit: the value
is delivered once. -/
theorem C1_result_round_trip {Ty : Type} [CppTypes Ty] (U : Ty) (v : CppTypes.El U) (h : Heap Ty)
    (task : TaskPtr) (t : Task Ty) (r : ResultPtr) (res : Result Ty)
    (ht : h.tasks[task]? = some t) (hrun : t.run = Any.of U v)
    (hbound : t.m_result = some r) (hres : h.results[r]? = some res)
    (hvalid : res.m_isValid = true) (hsem : res.m_sem = semaphore.init 0) :
    ∃ a h2 r2, (Task.exec task h).get r = some (a, h2) ∧
      (a.cast_ U).1 = Except.ok v ∧
      h2.results[r]? = some r2 ∧ r2.m_sem.m_resLimit = 0 ∧ r2.m_value = Any.empty ∧
      h2.get r = none := by
  have hlt : r < h.results.length := by
    rcases List.getElem?_eq_some.1 hres with ⟨hl, _⟩
    exact hl
  have hexec : Task.exec task h =
      { h with results := h.results.modify (fun x => x.setValue (Any.of U v)) r } := by
    simp [Task.exec, ht, hbound, Heap.setValue, hrun]
  have hlook : (h.results.modify (fun x => x.setValue (Any.of U v)) r)[r]? =
      some (res.setValue (Any.of U v)) := by
    simp [List.getElem?_modify, hres]
  have hset : ∀ (x : Result Ty),
      ((h.results.modify (fun x => x.setValue (Any.of U v)) r).set r x)[r]? = some x := by
    intro x
    simp [List.getElem?_set, hlt]
  let r2 : Result Ty := { res with m_value := Any.empty, m_sem := semaphore.init 0 }
  let h2 : Heap Ty :=
    { h with results := (h.results.modify (fun x => x.setValue (Any.of U v)) r).set r r2 }
  refine ⟨Any.of U v, h2, r2, ?_, ?_, ?_, ?_, ?_, ?_⟩
  · rw [hexec]
    simp only [Heap.get, hlook, get_after_setValue res _ hvalid hsem]
  · simp [Any.cast_, Any.of]
  · exact hset _
  · simp [semaphore.init]
  · rfl
  · simp only [Heap.get, hset]
    have hb : r2.get = none := get_blocks_when_drained r2 hvalid rfl
    rw [hb]

/-- C1 at a concrete input: the task at address 0 returns `10ULL`; `Result(sp)`
binds it, `exec` runs it and `get` delivers `10`. -/
theorem C1_result_round_trip_witness :
    ∃ a h2 r2, (Task.exec 0 (Result.init 0 true threeTasks).2).get 0 = some (a, h2) ∧
      (a.cast_ BasicTy.uLong).1 = Except.ok (10 : Nat) ∧
      h2.results[0]? = some r2 ∧ r2.m_sem.m_resLimit = 0 ∧ r2.m_value = Any.empty ∧
      h2.get 0 = none :=
  C1_result_round_trip BasicTy.uLong (10 : Nat) (Result.init 0 true threeTasks).2 0
    { run := Any.of BasicTy.uLong (10 : Nat), m_result := some 0 } 0
    { m_value := Any.empty, m_sem := semaphore.init 0, m_task := 0, m_isValid := true }
    rfl rfl rfl rfl rfl rfl

/-- C4 (typed extraction fails iff the type differs). On a container built from a
value `v` of type `S`, `cast_<S>` returns `v`, and `cast_<T>` throws the
type-mismatch error exactly when `T` differs from `S`; on a default-constructed
container `cast_<T>` throws it for every `T`. -/
theorem C4_cast_fails_iff_type_differs {Ty : Type} [CppTypes Ty] (S : Ty)
    (v : CppTypes.El S) (T : Ty) :
    ((Any.of S v).cast_ S).1 = Except.ok v ∧
    (((Any.of S v).cast_ T).1 = Except.error "type is unmatched!" ↔ T ≠ S) ∧
    ((Any.empty : Any Ty).cast_ T).1 = Except.error "type is unmatched!" := by
  refine ⟨?_, ?_, ?_⟩
  · simp [Any.cast_, Any.of]
  · by_cases h : S = T
    · subst h
      simp [Any.cast_, Any.of]
    · have h2 : T ≠ S := fun e => h e.symm
      simp [Any.cast_, Any.of, h, h2]
  · simp [Any.cast_, Any.empty]

/-- C5 fails as stated: `get` on the invalid handle returns a container that is
not empty; it holds the `const char *` literal `""`, and `cast_<const char *>`
on it succeeds. -/
theorem C5_invalid_get_not_empty :
    ∃ a r1, invalidHandle.get = some (a, r1) ∧ a.m_base.isSome = true ∧
      (Any.empty : Any BasicTy).m_base.isSome = false ∧
      (a.cast_ BasicTy.constCharPtr).1 = Except.ok CppTypes.emptyLiteral :=
  ⟨_, _, rfl, rfl, rfl, rfl⟩

/-- C5 as amended. On a handle constructed with `isValid = false`, `get` returns at
once and leaves the handle, its semaphore included, unchanged; the returned
container holds the empty C string `""` of type `const char *`, so
`cast_<const char *>` yields `""` and `cast_<T>` throws for every other `T`. -/
theorem C5_invalid_get_returns_empty_string {Ty : Type} [CppTypes Ty] (r : Result Ty)
    (hr : r.m_isValid = false) (T : Ty) :
    r.get = some (Any.of CppTypes.constCharPtr CppTypes.emptyLiteral, r) ∧
    ((Any.of CppTypes.constCharPtr
        (CppTypes.emptyLiteral : CppTypes.El (CppTypes.constCharPtr : Ty))).cast_
        CppTypes.constCharPtr).1 = Except.ok CppTypes.emptyLiteral ∧
    (T ≠ CppTypes.constCharPtr →
      ((Any.of CppTypes.constCharPtr
        (CppTypes.emptyLiteral : CppTypes.El (CppTypes.constCharPtr : Ty))).cast_ T).1
        = Except.error "type is unmatched!") := by
  refine ⟨?_, ?_, ?_⟩
  · simp [Result.get, hr]
  · simp [Any.cast_, Any.of]
  · intro h
    have h2 : ¬ (CppTypes.constCharPtr = T) := fun e => h e.symm
    simp [Any.cast_, Any.of, h2]

/-- C5 as amended, at the handle `Result(sp, false)` and the type
`unsigned long long`. -/
theorem C5_invalid_get_returns_empty_string_witness :
    invalidHandle.m_isValid = false ∧
    invalidHandle.get =
      some (Any.of BasicTy.constCharPtr CppTypes.emptyLiteral, invalidHandle) ∧
    ((Any.of BasicTy.constCharPtr
        (CppTypes.emptyLiteral : CppTypes.El BasicTy.constCharPtr)).cast_
        BasicTy.uLong).1 = Except.error "type is unmatched!" :=
  ⟨rfl, (C5_invalid_get_returns_empty_string invalidHandle rfl BasicTy.uLong).1,
    (C5_invalid_get_returns_empty_string invalidHandle rfl BasicTy.uLong).2.2 (by decide)⟩

/-- C6 fails as stated: after `cast_<unsigned long long>` on a container holding
`42`, the container still holds a value and a second `cast_` yields `42`
again. -/
theorem C6_second_cast_still_yields :
    ((Any.of BasicTy.uLong (42 : Nat)).cast_ BasicTy.uLong).1 = Except.ok (42 : Nat) ∧
    ((Any.of BasicTy.uLong (42 : Nat)).cast_ BasicTy.uLong).2.m_base.isSome = true ∧
    (((Any.of BasicTy.uLong (42 : Nat)).cast_ BasicTy.uLong).2.cast_ BasicTy.uLong).1
      = Except.ok (42 : Nat) :=
  ⟨rfl, rfl, rfl⟩

/-- C6 as amended. On a container holding a value `v` of type `S`, `cast_<S>` yields
a copy of `v` and leaves the container as it was, so a second `cast_<S>` on the
same container yields `v` again. -/
theorem C6_cast_keeps_value {Ty : Type} [CppTypes Ty] (S : Ty) (v : CppTypes.El S) :
    ((Any.of S v).cast_ S).1 = Except.ok v ∧
    ((Any.of S v).cast_ S).2 = Any.of S v ∧
    (((Any.of S v).cast_ S).2.cast_ S).1 = Except.ok v := by
  have hkeep : ((Any.of S v).cast_ S).2 = Any.of S v := by
    simp [Any.cast_, Any.of]
  have hval : ((Any.of S v).cast_ S).1 = Except.ok v := by
    simp [Any.cast_, Any.of]
  refine ⟨hval, hkeep, ?_⟩
  rw [hkeep]
  exact hval

/-! ## Submission -/

/-- C2 fails as stated: with the capacity set to `-1` the queue length 0 is not
below the capacity, yet `submitTask` enqueues the task and returns a valid
handle, because the test compares with `(size_t)(-1)`. -/
theorem C2_negative_capacity_accepts :
    ∃ w : World BasicTy,
      runOps [Op.setTaskQueMaskThreshHold (-1)] (World.init 0 threeTasks) = some w ∧
      ¬ ((w.pool.m_taskQueue.length : Int) < w.pool.m_taskQueMaxThreshHold) ∧
      handleValid (ThreadPool.submitTask 0 w).2 (ThreadPool.submitTask 0 w).1 = some true ∧
      (ThreadPool.submitTask 0 w).2.pool.m_taskQueue = [0] :=
  ⟨_, rfl, by decide, rfl, rfl⟩

/-- C2 as amended. For every state and task, `submitTask` returns an invalid handle
exactly when the queue length is not below the capacity converted to `size_t`,
which for a capacity `0 ≤ c < 2 ^ 64` is the capacity itself. In that case the
pool (queue, counters, registry), the id counter and the worker threads are
unchanged. Otherwise the handle is valid, the task is appended at the back of
the queue and `m_taskQueueSize` grows by exactly one. -/
theorem C2_submit_backpressure {Ty : Type} [CppTypes Ty] (w : World Ty) (sp : TaskPtr) :
    (handleValid (ThreadPool.submitTask sp w).2 (ThreadPool.submitTask sp w).1 = some false ↔
      ¬ (w.pool.m_taskQueue.length < toSizeT w.pool.m_taskQueMaxThreshHold)) ∧
    (handleValid (ThreadPool.submitTask sp w).2 (ThreadPool.submitTask sp w).1 = some false →
      (ThreadPool.submitTask sp w).2.pool = w.pool ∧
      (ThreadPool.submitTask sp w).2.s_generateId = w.s_generateId ∧
      (ThreadPool.submitTask sp w).2.idleThreads = w.idleThreads ∧
      (ThreadPool.submitTask sp w).2.busyThreads = w.busyThreads) ∧
    (handleValid (ThreadPool.submitTask sp w).2 (ThreadPool.submitTask sp w).1 ≠ some false →
      handleValid (ThreadPool.submitTask sp w).2 (ThreadPool.submitTask sp w).1 = some true ∧
      (ThreadPool.submitTask sp w).2.pool.m_taskQueue = w.pool.m_taskQueue ++ [sp] ∧
      (ThreadPool.submitTask sp w).2.pool.m_taskQueueSize = w.pool.m_taskQueueSize + 1) ∧
    (0 ≤ w.pool.m_taskQueMaxThreshHold →
      w.pool.m_taskQueMaxThreshHold < ((2 ^ 64 : Nat) : Int) →
      (w.pool.m_taskQueue.length < toSizeT w.pool.m_taskQueMaxThreshHold ↔
        (w.pool.m_taskQueue.length : Int) < w.pool.m_taskQueMaxThreshHold)) := by
  rw [submit_handle]
  refine ⟨?_, ?_, ?_, ?_⟩
  · simp [ThreadPool.notFull]
  · intro h
    simp only [Option.some.injEq] at h
    exact submit_rest sp w h
  · intro h
    have hf : w.pool.notFull = true := by
      cases hn : w.pool.notFull with
      | true => rfl
      | false => rw [hn] at h; exact absurd rfl h
    refine ⟨by rw [hf], ?_, ?_⟩
    · rw [submit_frame]
      simp only [hf, Bool.not_true, Bool.false_eq_true, if_false]
      split <;> rfl
    · rw [submit_frame]
      simp only [hf, Bool.not_true, Bool.false_eq_true, if_false]
      split <;> rfl
  · intro h0 h1
    unfold toSizeT
    omega

/-- C2 as amended, on the backpressure scenario: capacity 1, one worker that holds
the first task, the second task fills the queue; the third submission is
rejected and leaves the pool unchanged. -/
theorem C2_submit_backpressure_witness :
    ∃ w : World BasicTy,
      runOps [Op.setTaskQueMaskThreshHold 1, Op.start 1, Op.submitTask 0, Op.take 0,
        Op.submitTask 1] (World.init 0 threeTasks) = some w ∧
      handleValid (ThreadPool.submitTask 2 w).2 (ThreadPool.submitTask 2 w).1 = some false ∧
      (ThreadPool.submitTask 2 w).2.pool = w.pool := by
  refine ⟨_, rfl, rfl, ?_⟩
  refine ((C2_submit_backpressure _ 2).2.1 ?_).1
  rfl

/-- C3 (elastic growth rule). In every reachable state, a `submitTask` that finds
the queue not full registers a new worker if and only if the mode is
`MODE_CACHED` and, after the enqueue, `m_taskQueueSize > m_idleThreadSize` and
`m_curThreadSize < m_threadSizeMaxThreshHold`. When it does, exactly one entry,
under the fresh id `s_generateId`, is added to the registry and
`m_curThreadSize` and `m_idleThreadSize` each grow by one; otherwise the
registry and both counters are unchanged. Moreover, in `MODE_CACHED` after
`start(2)` on a fresh pool, every run of three submissions interleaved with
workers taking tasks, no task finishing, ends with `m_curThreadSize = 3`; the
run without any pick-up is one of them. -/
theorem C3_elastic_growth_rule {Ty : Type} [CppTypes Ty] (w : World Ty) (hw : Reachable w) (sp : TaskPtr)
    (hfull : w.pool.notFull = true) :
    ((ThreadPool.submitTask sp w).2.pool.m_threads ≠ w.pool.m_threads ↔
      (w.pool.m_poolMode = PoolMode.MODE_CACHED ∧
        w.pool.m_taskQueueSize + 1 > w.pool.m_idleThreadSize ∧
        w.pool.m_curThreadSize < w.pool.m_threadSizeMaxThreshHold)) ∧
    ((w.pool.m_poolMode = PoolMode.MODE_CACHED ∧
        w.pool.m_taskQueueSize + 1 > w.pool.m_idleThreadSize ∧
        w.pool.m_curThreadSize < w.pool.m_threadSizeMaxThreshHold) →
      w.s_generateId ∉ registryIds w.pool.m_threads ∧
      (ThreadPool.submitTask sp w).2.pool.m_threads =
        w.pool.m_threads ++ [(w.s_generateId, { m_threadId := w.s_generateId })] ∧
      (ThreadPool.submitTask sp w).2.pool.m_curThreadSize = w.pool.m_curThreadSize + 1 ∧
      (ThreadPool.submitTask sp w).2.pool.m_idleThreadSize = w.pool.m_idleThreadSize + 1) ∧
    (¬ (w.pool.m_poolMode = PoolMode.MODE_CACHED ∧
        w.pool.m_taskQueueSize + 1 > w.pool.m_idleThreadSize ∧
        w.pool.m_curThreadSize < w.pool.m_threadSizeMaxThreshHold) →
      (ThreadPool.submitTask sp w).2.pool.m_threads = w.pool.m_threads ∧
      (ThreadPool.submitTask sp w).2.pool.m_curThreadSize = w.pool.m_curThreadSize ∧
      (ThreadPool.submitTask sp w).2.pool.m_idleThreadSize = w.pool.m_idleThreadSize) ∧
    (∀ (heap : Heap Ty) (w0 w3 : World Ty) (ops : List Op),
      runOps [Op.setMode PoolMode.MODE_CACHED, Op.start 2] (World.init 0 heap) = some w0 →
      runWith okSubmitTake ops w0 = some w3 → countSubmits ops = 3 →
      w3.pool.m_curThreadSize = 3) ∧
    (∃ w3 : World BasicTy,
      runOps [Op.setMode PoolMode.MODE_CACHED, Op.start 2, Op.submitTask 0, Op.submitTask 1,
        Op.submitTask 2] (World.init 0 threeTasks) = some w3 ∧
      w3.pool.m_curThreadSize = 3) := by
  have hfresh : w.s_generateId ∉ registryIds w.pool.m_threads := by
    intro hmem
    have := IdsBelow_of_Reachable w hw _ hmem
    omega
  have hgrow : (w.pool.m_poolMode = PoolMode.MODE_CACHED ∧
        w.pool.m_taskQueueSize + 1 > w.pool.m_idleThreadSize ∧
        w.pool.m_curThreadSize < w.pool.m_threadSizeMaxThreshHold) →
      (ThreadPool.submitTask sp w).2.pool =
        { w.pool with
            m_taskQueue := w.pool.m_taskQueue ++ [sp]
            m_taskQueueSize := w.pool.m_taskQueueSize + 1
            m_threads := w.pool.m_threads ++ [(w.s_generateId, { m_threadId := w.s_generateId })]
            m_idleThreadSize := w.pool.m_idleThreadSize + 1
            m_curThreadSize := w.pool.m_curThreadSize + 1 } := by
    intro hg
    rw [submit_frame]
    have hw2 : ({ w.pool with
            m_taskQueue := w.pool.m_taskQueue ++ [sp]
            m_taskQueueSize := w.pool.m_taskQueueSize + 1 } : ThreadPool).wantsWorker = true := by
      simp only [ThreadPool.wantsWorker, Bool.and_eq_true, decide_eq_true_eq]
      exact ⟨⟨hg.1, hg.2.1⟩, hg.2.2⟩
    simp only [hfull, hw2, Bool.not_true, Bool.false_eq_true, if_false, if_true]
    simp [emplace, hfresh]
  have hstay : ¬ (w.pool.m_poolMode = PoolMode.MODE_CACHED ∧
        w.pool.m_taskQueueSize + 1 > w.pool.m_idleThreadSize ∧
        w.pool.m_curThreadSize < w.pool.m_threadSizeMaxThreshHold) →
      (ThreadPool.submitTask sp w).2.pool =
        { w.pool with
            m_taskQueue := w.pool.m_taskQueue ++ [sp]
            m_taskQueueSize := w.pool.m_taskQueueSize + 1 } := by
    intro hg
    rw [submit_frame]
    have hw2 : ({ w.pool with
            m_taskQueue := w.pool.m_taskQueue ++ [sp]
            m_taskQueueSize := w.pool.m_taskQueueSize + 1 } : ThreadPool).wantsWorker = false := by
      rw [Bool.eq_false_iff]
      intro hc
      simp only [ThreadPool.wantsWorker, Bool.and_eq_true, decide_eq_true_eq] at hc
      exact hg ⟨hc.1.1, hc.1.2, hc.2⟩
    simp only [hfull, hw2, Bool.not_true, Bool.false_eq_true, if_false]
  refine ⟨?_, ?_, ?_, ?_, ?_⟩
  · constructor
    · intro hne
      by_contra hg
      rw [hstay hg] at hne
      exact hne rfl
    · intro hg heq
      rw [hgrow hg] at heq
      have := congrArg List.length heq
      simp at this
  · intro hg
    rw [hgrow hg]
    exact ⟨hfresh, rfl, rfl, rfl⟩
  · intro hg
    rw [hstay hg]
    exact ⟨rfl, rfl, rfl⟩
  · intro heap w0 w3 ops h0 hrun hc
    exact growth_run ops 0 w0 w3 (growth_after_start heap w0 h0) (by omega) hrun
  · exact ⟨_, rfl, by decide⟩

/-- C3 at a concrete input: `MODE_CACHED`, `start(2)`, two submissions; the third
finds the queue not full and three queued tasks against two idle workers, and
adds a worker. -/
theorem C3_elastic_growth_rule_witness :
    ∃ w : World BasicTy,
      runOps [Op.setMode PoolMode.MODE_CACHED, Op.start 2, Op.submitTask 0, Op.submitTask 1]
        (World.init 0 threeTasks) = some w ∧
      w.pool.notFull = true ∧
      (ThreadPool.submitTask 2 w).2.pool.m_curThreadSize = w.pool.m_curThreadSize + 1 := by
  refine ⟨_, rfl, rfl, ?_⟩
  exact ((C3_elastic_growth_rule _
    ⟨0, threeTasks,
      [Op.setMode PoolMode.MODE_CACHED, Op.start 2, Op.submitTask 0, Op.submitTask 1], rfl⟩
    2 rfl).2.1 (by decide)).2.2.1

/-! ## Invariants of executions -/

/-- C7 fails as stated. Each run below starts from a fresh pool and ends in a state
that violates `0 ≤ idle ≤ current ≤ ceiling`. The first six end after the last
call has returned: `start(11)` exceeds the default ceiling 10; `start(-1)` makes
the count negative; a negative ceiling is accepted in `MODE_CACHED`; a second
`start` adds to `m_idleThreadSize` but overwrites `m_curThreadSize`; so does a
`start` after a `MODE_CACHED` submission has already created a worker, also
when that worker is executing its task at the time and finishes afterwards. In
the last two, `start(1)` has launched its worker but not yet counted it
(between lines 168 and 169) when the worker takes a task, submitted before
`start` or by another thread during `start`: `m_idleThreadSize` is `-1`. -/
theorem C7_worker_count_violations :
    (∃ s : FineWorld BasicTy,
      runFineOps
        (FineOp.startCall 11 :: List.replicate 37 FineOp.startAdvance)
        (FineWorld.init 0 threeTasks) = some s ∧
      s.startPc = none ∧
      ¬ (0 ≤ s.world.pool.m_idleThreadSize ∧
        s.world.pool.m_idleThreadSize ≤ s.world.pool.m_curThreadSize ∧
        s.world.pool.m_curThreadSize ≤ s.world.pool.m_threadSizeMaxThreshHold)) ∧
    (∃ s : FineWorld BasicTy,
      runFineOps
        (FineOp.startCall (-1) :: List.replicate 4 FineOp.startAdvance)
        (FineWorld.init 0 threeTasks) = some s ∧
      s.startPc = none ∧
      ¬ (0 ≤ s.world.pool.m_idleThreadSize ∧
        s.world.pool.m_idleThreadSize ≤ s.world.pool.m_curThreadSize ∧
        s.world.pool.m_curThreadSize ≤ s.world.pool.m_threadSizeMaxThreshHold)) ∧
    (∃ s : FineWorld BasicTy,
      runFineOps
        ([FineOp.atomic (Op.setMode PoolMode.MODE_CACHED),
          FineOp.atomic (Op.setThreadSizeMaxThreshHold (-1))])
        (FineWorld.init 0 threeTasks) = some s ∧
      s.startPc = none ∧
      ¬ (0 ≤ s.world.pool.m_idleThreadSize ∧
        s.world.pool.m_idleThreadSize ≤ s.world.pool.m_curThreadSize ∧
        s.world.pool.m_curThreadSize ≤ s.world.pool.m_threadSizeMaxThreshHold)) ∧
    (∃ s : FineWorld BasicTy,
      runFineOps
        ((FineOp.startCall 2 :: List.replicate 10 FineOp.startAdvance) ++
          (FineOp.startCall 1 :: List.replicate 7 FineOp.startAdvance))
        (FineWorld.init 0 threeTasks) = some s ∧
      s.startPc = none ∧
      ¬ (0 ≤ s.world.pool.m_idleThreadSize ∧
        s.world.pool.m_idleThreadSize ≤ s.world.pool.m_curThreadSize ∧
        s.world.pool.m_curThreadSize ≤ s.world.pool.m_threadSizeMaxThreshHold)) ∧
    (∃ s : FineWorld BasicTy,
      runFineOps
        ([FineOp.atomic (Op.setMode PoolMode.MODE_CACHED), FineOp.atomic (Op.submitTask 0)] ++
          (FineOp.startCall 1 :: List.replicate 7 FineOp.startAdvance))
        (FineWorld.init 0 threeTasks) = some s ∧
      s.startPc = none ∧
      ¬ (0 ≤ s.world.pool.m_idleThreadSize ∧
        s.world.pool.m_idleThreadSize ≤ s.world.pool.m_curThreadSize ∧
        s.world.pool.m_curThreadSize ≤ s.world.pool.m_threadSizeMaxThreshHold)) ∧
    (∃ s : FineWorld BasicTy,
      runFineOps
        ([FineOp.atomic (Op.setMode PoolMode.MODE_CACHED), FineOp.atomic (Op.submitTask 0),
          FineOp.atomic (Op.take 0)] ++
          (FineOp.startCall 1 :: List.replicate 7 FineOp.startAdvance) ++
          [FineOp.atomic (Op.run 0)])
        (FineWorld.init 0 threeTasks) = some s ∧
      s.startPc = none ∧
      ¬ (0 ≤ s.world.pool.m_idleThreadSize ∧
        s.world.pool.m_idleThreadSize ≤ s.world.pool.m_curThreadSize ∧
        s.world.pool.m_curThreadSize ≤ s.world.pool.m_threadSizeMaxThreshHold)) ∧
    (∃ s : FineWorld BasicTy,
      runFineOps
        ([FineOp.atomic (Op.submitTask 0)] ++
          (FineOp.startCall 1 :: List.replicate 5 FineOp.startAdvance) ++
          [FineOp.atomic (Op.take 0)])
        (FineWorld.init 0 threeTasks) = some s ∧
      s.world.pool.m_idleThreadSize = -1 ∧
      ¬ (0 ≤ s.world.pool.m_idleThreadSize ∧
        s.world.pool.m_idleThreadSize ≤ s.world.pool.m_curThreadSize ∧
        s.world.pool.m_curThreadSize ≤ s.world.pool.m_threadSizeMaxThreshHold)) ∧
    (∃ s : FineWorld BasicTy,
      runFineOps
        ((FineOp.startCall 1 :: List.replicate 5 FineOp.startAdvance) ++
          [FineOp.atomic (Op.submitTask 0), FineOp.atomic (Op.take 0)])
        (FineWorld.init 0 threeTasks) = some s ∧
      s.world.pool.m_idleThreadSize = -1 ∧
      ¬ (0 ≤ s.world.pool.m_idleThreadSize ∧
        s.world.pool.m_idleThreadSize ≤ s.world.pool.m_curThreadSize ∧
        s.world.pool.m_curThreadSize ≤ s.world.pool.m_threadSizeMaxThreshHold)) :=
  ⟨⟨_, rfl, rfl, by decide⟩, ⟨_, rfl, rfl, by decide⟩, ⟨_, rfl, rfl, by decide⟩,
    ⟨_, rfl, rfl, by decide⟩, ⟨_, rfl, rfl, by decide⟩, ⟨_, rfl, rfl, by decide⟩,
    ⟨_, rfl, rfl, by decide⟩, ⟨_, rfl, rfl, by decide⟩⟩

/-- C7 as amended. `0 ≤ idle_workers ≤ current_workers ≤ ceiling` holds in every
state, also between two statements of a call of `start`, that is reachable from
a fresh pool by the public operations, the destructor and the worker steps,
with worker steps interleaved anywhere, provided that public operations are
called one at a time (none while a call of `start` is in progress), that
`start(n)` is only called with `0 ≤ n ≤ ceiling` on a pool whose task queue is
empty, with no worker thread executing a task and `idle_workers = 0` (as on a
pool that has not been given a task and has not created a worker yet), and that
every `setThreadSizeMaxThreshHold` that takes effect is given at least
`current_workers`. -/
theorem C7_worker_count_invariant {Ty : Type} [CppTypes Ty] (g : Int) (heap : Heap Ty)
    (fops : List FineOp) (s : FineWorld Ty)
    (h : runFine okFine fops (FineWorld.init g heap) = some s) :
    0 ≤ s.world.pool.m_idleThreadSize ∧
      s.world.pool.m_idleThreadSize ≤ s.world.pool.m_curThreadSize ∧
      s.world.pool.m_curThreadSize ≤ s.world.pool.m_threadSizeMaxThreshHold := by
  have h0 : FineInv (FineWorld.init g heap) := by
    simp [FineInv, FineWorld.init, WorkerInv, World.init, ThreadPool.init,
      THREAD_MAX_THRESHHOLD]
  exact FineInv_bounds s (runFine_preserves okFine FineInv FineInv_step fops _ _ h0 h)

/-- C7 as amended, on a run: ceiling 4, `start(2)` statement by statement, then
three submissions with the workers picking up and finishing tasks in between,
the third submission adding a worker. -/
theorem C7_worker_count_invariant_witness :
    ∃ s : FineWorld BasicTy,
      runFine okFine
        ([FineOp.atomic (Op.setMode PoolMode.MODE_CACHED),
          FineOp.atomic (Op.setThreadSizeMaxThreshHold 4)] ++
          (FineOp.startCall 2 :: List.replicate 10 FineOp.startAdvance) ++
          [FineOp.atomic (Op.submitTask 0), FineOp.atomic (Op.take 0),
           FineOp.atomic (Op.submitTask 1), FineOp.atomic (Op.submitTask 2),
           FineOp.atomic (Op.take 1), FineOp.atomic (Op.run 0), FineOp.atomic (Op.take 0)])
        (FineWorld.init 0 threeTasks) = some s ∧
      s.world.pool.m_curThreadSize = 3 ∧
      (0 ≤ s.world.pool.m_idleThreadSize ∧
        s.world.pool.m_idleThreadSize ≤ s.world.pool.m_curThreadSize ∧
        s.world.pool.m_curThreadSize ≤ s.world.pool.m_threadSizeMaxThreshHold) := by
  refine ⟨_, rfl, rfl, ?_⟩
  exact C7_worker_count_invariant 0 threeTasks
    ([FineOp.atomic (Op.setMode PoolMode.MODE_CACHED),
      FineOp.atomic (Op.setThreadSizeMaxThreshHold 4)] ++
      (FineOp.startCall 2 :: List.replicate 10 FineOp.startAdvance) ++
      [FineOp.atomic (Op.submitTask 0), FineOp.atomic (Op.take 0),
       FineOp.atomic (Op.submitTask 1), FineOp.atomic (Op.submitTask 2),
       FineOp.atomic (Op.take 1), FineOp.atomic (Op.run 0), FineOp.atomic (Op.take 0)])
    _ rfl

/-- C8 fails as stated. Two submissions before `start` followed by
`setTaskQueMaskThreshHold(1)` leave two queued tasks above the capacity 1; and
`setTaskQueMaskThreshHold(-1)` alone leaves `queued_tasks = 0` above the
capacity `-1`. -/
theorem C8_queue_bound_violations :
    (∃ w : World BasicTy,
      runOps [Op.submitTask 0, Op.submitTask 1, Op.setTaskQueMaskThreshHold 1]
        (World.init 0 threeTasks) = some w ∧
      ¬ (w.pool.m_taskQueueSize = w.pool.m_taskQueue.length ∧
        w.pool.m_taskQueueSize ≤ w.pool.m_taskQueMaxThreshHold)) ∧
    (∃ w : World BasicTy,
      runOps [Op.setTaskQueMaskThreshHold (-1)] (World.init 0 threeTasks) = some w ∧
      ¬ (w.pool.m_taskQueueSize = w.pool.m_taskQueue.length ∧
        w.pool.m_taskQueueSize ≤ w.pool.m_taskQueMaxThreshHold)) :=
  ⟨⟨_, rfl, by decide⟩, ⟨_, rfl, by decide⟩⟩

/-- C8 as amended. In every state reachable from a fresh pool by the public
operations, the destructor and the worker steps, `queued_tasks` equals the
length of the task queue. If moreover every `setTaskQueMaskThreshHold` that
takes effect is given at least the current queue length, then
`queued_tasks ≤ capacity` holds as well. -/
theorem C8_queue_bound_invariant {Ty : Type} [CppTypes Ty] (g : Int) (heap : Heap Ty) (ops : List Op)
    (w : World Ty) :
    (runOps ops (World.init g heap) = some w →
      w.pool.m_taskQueueSize = w.pool.m_taskQueue.length) ∧
    (runWith okQueue ops (World.init g heap) = some w →
      w.pool.m_taskQueueSize = w.pool.m_taskQueue.length ∧
      w.pool.m_taskQueueSize ≤ w.pool.m_taskQueMaxThreshHold) := by
  constructor
  · intro h
    have h0 : SizeInv (World.init g heap) := by
      simp [SizeInv, World.init, ThreadPool.init]
    exact runWith_preserves _ SizeInv (fun op w w1 _ hi hs => SizeInv_step op w w1 hi hs)
      ops _ _ h0 h
  · intro h
    have h0 : QueueInv (World.init g heap) := by
      simp [QueueInv, World.init, ThreadPool.init, TASK_MAX_THRESHHOLD]
    obtain ⟨h1, -, h3⟩ := runWith_preserves okQueue QueueInv QueueInv_step ops _ _ h0 h
    exact ⟨h1, h3⟩

/-- C8 as amended, on a run: a submission before `start`, the capacity lowered to
1, `start(1)`, the worker takes the task, and one more submission. -/
theorem C8_queue_bound_invariant_witness :
    ∃ w : World BasicTy,
      runWith okQueue [Op.submitTask 0, Op.setTaskQueMaskThreshHold 1, Op.start 1, Op.take 0,
        Op.submitTask 1, Op.submitTask 2] (World.init 0 threeTasks) = some w ∧
      (w.pool.m_taskQueueSize = w.pool.m_taskQueue.length ∧
        w.pool.m_taskQueueSize ≤ w.pool.m_taskQueMaxThreshHold) := by
  refine ⟨_, rfl, ?_⟩
  exact (C8_queue_bound_invariant 0 threeTasks
    [Op.submitTask 0, Op.setTaskQueMaskThreshHold 1, Op.start 1, Op.take 0,
      Op.submitTask 1, Op.submitTask 2] _).2 rfl

/-- C9 fails as stated. The pool is in `MODE_FIXED` when `start(2)` is called; the
public operation `start(1)` then leads to a running state with
`current_workers = initial_workers = 1`, not 2. -/
theorem C9_second_start_changes_count :
    ∃ w1 w2 : World BasicTy,
      (World.init 0 threeTasks : World BasicTy).pool.m_poolMode = PoolMode.MODE_FIXED ∧
      ThreadPool.start 2 (World.init 0 threeTasks) = some w1 ∧
      runOps [Op.start 1] w1 = some w2 ∧
      w2.pool.m_isPoolRunning = true ∧
      ¬ (w2.pool.m_poolMode = PoolMode.MODE_FIXED ∧ w2.pool.m_curThreadSize = 2 ∧
        w2.pool.m_initThreadSize = 2) :=
  ⟨_, _, rfl, rfl, rfl, rfl, by decide⟩

/-- C9 as amended. If the pool is in `MODE_FIXED` when `start(n)` is called, then in
every state reachable afterwards by the public operations other than a further
`start`, the destructor and the worker steps, as long as the pool is running,
the mode is still `MODE_FIXED` and `current_workers = initial_workers = n`. -/
theorem C9_fixed_mode_pins_count {Ty : Type} [CppTypes Ty] (n : Int) (w w1 w2 : World Ty) (ops : List Op)
    (hmode : w.pool.m_poolMode = PoolMode.MODE_FIXED)
    (hstart : ThreadPool.start n w = some w1)
    (hrun : runWith okNoStart ops w1 = some w2)
    (hrunning : w2.pool.m_isPoolRunning = true) :
    w2.pool.m_poolMode = PoolMode.MODE_FIXED ∧ w2.pool.m_curThreadSize = n ∧
      w2.pool.m_initThreadSize = n := by
  obtain ⟨-, s2, s3, s4⟩ := start_fields n w w1 hstart
  have h0 : FixedInv n w1 := fun _ => ⟨by rw [s2, hmode], s3, s4⟩
  exact runWith_preserves okNoStart (FixedInv n) (FixedInv_step n) ops _ _ h0 hrun hrunning

/-- C9 as amended, on a run after `start(2)`: an ignored `setMode(MODE_CACHED)`,
three submissions, and workers taking and finishing tasks. -/
theorem C9_fixed_mode_pins_count_witness :
    ∃ w1 w2 : World BasicTy,
      ThreadPool.start 2 (World.init 0 threeTasks) = some w1 ∧
      runWith okNoStart [Op.setMode PoolMode.MODE_CACHED, Op.submitTask 0, Op.submitTask 1,
        Op.submitTask 2, Op.take 0, Op.take 0, Op.run 1, Op.take 0] w1 = some w2 ∧
      w2.pool.m_isPoolRunning = true ∧
      (w2.pool.m_poolMode = PoolMode.MODE_FIXED ∧ w2.pool.m_curThreadSize = 2 ∧
        w2.pool.m_initThreadSize = 2) := by
  refine ⟨_, _, rfl, rfl, rfl, ?_⟩
  exact C9_fixed_mode_pins_count 2 (World.init 0 threeTasks) _ _
    [Op.setMode PoolMode.MODE_CACHED, Op.submitTask 0, Op.submitTask 1,
      Op.submitTask 2, Op.take 0, Op.take 0, Op.run 1, Op.take 0] rfl rfl rfl rfl

/-! ## `start` and the registry -/

/-- C10 on the code, with the id counter at 1 (one `Thread` was constructed earlier
in the process): `start(1)` on a fresh pool registers the worker under id 1,
then looks up key 0, which is absent, so the launch loop has no defined
outcome and worker 1 is never started. With the counter at 0 the same call
starts the registered worker. -/
theorem C10_start_looks_up_absent_id :
    registryIds (startRegister 1 (World.init 1 noHeap)).pool.m_threads = [1] ∧
    (startRegister 1 (World.init 1 noHeap)).pool.m_threads.lookup 0 = none ∧
    (ThreadPool.start 1 (World.init 1 noHeap)).isNone = true ∧
    (∃ w : World BasicTy, ThreadPool.start 1 (World.init 0 noHeap) = some w ∧
      registryIds w.pool.m_threads = [0] ∧ w.idleThreads = [0]) :=
  ⟨rfl, rfl, rfl, ⟨_, rfl, rfl, rfl⟩⟩

end ThreadPoolModel
